import Mathlib

/-!
Verification of the windowed transaction-matching and disambiguation engine
of the lunchmoney-python-utils repository.

The development shallowly embeds the relevant Python code:

* `lib/find_duplicates.py` — the cross-set reconciler (`find_duplicates`,
  `filter_matches_by_account`), modelled here at the instantiation used by
  `compare_plaid_with_mint.py` (`old_type="mint"`, `update_fn=report_findings`).
* `lib/find_and_process_dups.py` — the self-set duplicate detector
  (`find_duplicate_transactions`, `find_duplicates_for_one_account`,
  `interactive_tag_non_dup`).
* `lib/transactions.py` — `lunchmoney_delete_transaction` and
  `lunchmoney_update_transaction` (the external store is modelled as a list of
  records; an update is a field-wise overwrite at the given id).

Dataframes become lists of records carrying their pandas index (`idx`); dates
are day numbers (`Int`), currency amounts are cents (`Int`); the interactive
terminal is modelled by an explicit list of pending input strings, consumed one
per prompt, and by a trace of the candidate groups displayed to the user.
Python string operations (`strip`, `lower`, `split`, `join`, `int(...)`) are
modelled explicitly over `String`/`List Char` (ASCII case folding; Python's
underscore digit grouping for `int` is omitted).
-/

/-! ## Python string primitives -/

/-- Characters treated as whitespace by Python's `str.strip()` (ASCII range). -/
def isPySpace (c : Char) : Bool :=
  c = ' ' || c = '\t' || c = '\n' || c = '\r' || c = '\x0b' || c = '\x0c'

/-- Python `str.strip()` on the underlying character list. -/
def pyStripChars (s : List Char) : List Char :=
  ((s.dropWhile isPySpace).reverse.dropWhile isPySpace).reverse

/-- Python `str.strip()`. -/
def pyStrip (s : String) : String := ⟨pyStripChars s.data⟩

/-- Python `str.lower()` (ASCII case folding). -/
def pyLower (s : String) : String := ⟨s.data.map Char.toLower⟩

/-- Pandas `.str.lower().str.strip()` normalization used on account names. -/
def normalizeAcct (s : String) : String := pyStrip (pyLower s)

/-- Python `str.split(sep)` helper: splits off the first chunk and the rest. -/
def pySplitAux (sep : Char) : List Char → List Char × List (List Char)
  | [] => ([], [])
  | c :: cs =>
    let r := pySplitAux sep cs
    if c = sep then ([], r.1 :: r.2) else (c :: r.1, r.2)

/-- Python `str.split(sep)` on character lists; `"".split(sep) == [""]`. -/
def pySplitChars (sep : Char) (s : List Char) : List (List Char) :=
  (pySplitAux sep s).1 :: (pySplitAux sep s).2

/-- Python `s.split(",")`. -/
def pySplitComma (s : String) : List String :=
  (pySplitChars ',' s.data).map (fun l => ⟨l⟩)

/-- Python `sep.join(words)` on character lists. -/
def pyJoinChars (sep : Char) : List (List Char) → List Char
  | [] => []
  | [w] => w
  | w :: ws => w ++ sep :: pyJoinChars sep ws

/-- Python `",".join(names)`. -/
def pyJoinComma (names : List String) : String :=
  ⟨pyJoinChars ',' (names.map String.data)⟩

/-- Digit-string value used by `parsePyInt`. -/
def digitsToNat (ds : List Char) : Nat :=
  ds.foldl (fun a c => 10 * a + (c.toNat - 48)) 0

/-- Python `int(s)`: strips whitespace, accepts an optional sign followed by a
nonempty digit string; raises `ValueError` (here: `none`) otherwise. -/
def parsePyInt (s : String) : Option Int :=
  match pyStripChars s.data with
  | [] => none
  | '-' :: ds =>
    if ds ≠ [] ∧ ds.all Char.isDigit then some (-(digitsToNat ds : Int)) else none
  | '+' :: ds =>
    if ds ≠ [] ∧ ds.all Char.isDigit then some (digitsToNat ds : Int) else none
  | ds =>
    if ds ≠ [] ∧ ds.all Char.isDigit then some (digitsToNat ds : Int) else none

/-- Substring containment, Python's `needle in haystack` on strings. -/
def containsSub (needle hay : List Char) : Bool :=
  hay.tails.any (fun t => needle.isPrefixOf t)

/-! ## Data model: rows of the two dataframes -/

/-- A row of the lunchmoney ("plaid") dataframe handed to `find_duplicates` as
`new_df`.  `idx` is the pandas index label; `related_id` holds the index of the
matching mint row once found. -/
structure PlaidRow where
  idx : Int
  id : Int
  date : Int
  amount : Int
  payee : String
  account_display_name : String
  action : Option String
  related_id : Option Int
  deriving Repr, DecidableEq

/-- A row of the mint dataframe handed to `find_duplicates` as `old_df`
(`old_type="mint"` column names).  `related_id` holds the lunchmoney
transaction id once matched. -/
structure MintRow where
  idx : Int
  Date : Int
  Amount : Int
  Description : String
  TransactionType : String
  AccountName : String
  action : Option String
  related_id : Option Int
  deriving Repr, DecidableEq

/-- The optional account-name synonym table (`account_name_map.csv`): each
column has a canonical lunchmoney account name and the list of spellings it
may take in the mint data. -/
abbrev AliasTable := List (String × List String)

/-! ## lib/find_duplicates.py: filter_matches_by_account -/

/-- Shallow embedding of `filter_matches_by_account` (lib/find_duplicates.py,
lines 10–26), at the mint instantiation (`acct_field_name = "Account Name"`,
which also is the column the `else` branch reads).  The source strips the
incoming `account` once, then tests `account in acct_name_df.columns` with
exact (case-sensitive) string equality; only alias values and the comparison
rows' account names are lower-cased and stripped.  Pandas' `.unique()` on the
alias column is dropped: it only removes duplicates and cannot change
membership. -/
def filter_matches_by_account (mts : List MintRow) (account : String)
    (acct_name_df : Option AliasTable) : List MintRow :=
  let account := pyStrip account
  match acct_name_df with
  | some tbl =>
    match tbl.lookup account with
    | some colAliases =>
      let processed_acct_names := colAliases.map normalizeAcct
      mts.filter (fun m => processed_acct_names.contains (normalizeAcct m.AccountName))
    | none =>
      mts.filter (fun m => normalizeAcct m.AccountName == pyLower account)
  | none =>
    mts.filter (fun m => normalizeAcct m.AccountName == pyLower account)

/-! ## lib/find_duplicates.py: the windowed candidate stages (mint path) -/

/-- The date test of `find_duplicates` (lib/find_duplicates.py lines 91–99):
the comparison date must be at most `lookahead_days` after and at most
`lookback_days` before the source row's date. -/
def dateInWindow (rowDate lookback_days lookahead_days oldDate : Int) : Bool :=
  (oldDate ≤ rowDate + lookahead_days) && (oldDate ≥ rowDate - lookback_days)

/-- First candidate stage for `old_type="mint"` (lines 87–101): the source
amount is replaced by `abs(row["amount"])` and compared for exact equality
together with the date-window test. -/
def amountMatches (old_df_copy : List MintRow) (row : PlaidRow)
    (lookback_days lookahead_days : Int) : List MintRow :=
  let amount : Int := row.amount.natAbs
  old_df_copy.filter (fun t =>
    dateInWindow row.date lookback_days lookahead_days t.Date && t.Amount == amount)

/-- Second candidate stage for `old_type="mint"` (lines 102–106): a positive
source amount requires `Transaction Type == "debit"`, otherwise `"credit"`. -/
def typeMatches (mts : List MintRow) (rowAmount : Int) : List MintRow :=
  if rowAmount > 0 then mts.filter (fun t => t.TransactionType == "debit")
  else mts.filter (fun t => t.TransactionType == "credit")

/-- The full candidate set offered for one source row: date/amount window,
then debit/credit agreement, then account filtering. -/
def candidateSet (old_df_copy : List MintRow) (row : PlaidRow)
    (acct_name_df : Option AliasTable) (lookback_days lookahead_days : Int) :
    List MintRow :=
  filter_matches_by_account (typeMatches (amountMatches old_df_copy row lookback_days lookahead_days) row.amount)
    row.account_display_name acct_name_df

/-! ## compare_plaid_with_mint.py: report_findings and the reconciler loop -/

/-- Shallow embedding of `report_findings` (compare_plaid_with_mint.py lines
117–135), the `update_fn` used with `find_duplicates`: the lunchmoney row gets
`action="Duplicate"` and `related_id` = the mint row's index; the mint row gets
`action="Match"` and `related_id` = the lunchmoney row's transaction id. -/
def report_findings (lm_df : List PlaidRow) (lm_index : Int)
    (mint_df : List MintRow) (mint_index : Int) : List PlaidRow × List MintRow :=
  let lm_id : Option Int := (lm_df.find? (fun r => r.idx == lm_index)).map (fun r => r.id)
  (lm_df.map (fun r =>
      if r.idx == lm_index then { r with action := some "Duplicate", related_id := some mint_index } else r),
   mint_df.map (fun r =>
      if r.idx == mint_index then { r with action := some "Match", related_id := lm_id } else r))

/-- Mutable state of one `find_duplicates` run: the two dataframes, the working
copy `old_df_copy` candidates are drawn from, the pending terminal inputs, and
a count of prompts issued (inputs consumed). -/
structure FDState where
  new_df : List PlaidRow
  old_df : List MintRow
  old_df_copy : List MintRow
  inputs : List String
  prompts : Nat
  deriving Repr, DecidableEq

/-- Effect of a selection at the multi-candidate prompt (lib/find_duplicates.py
lines 158–164): call `update_fn` with the chosen index and drop that label from
`old_df_copy`. -/
def applySelection (st : FDState) (rowIdx old_index : Int) : FDState :=
  let p := report_findings st.new_df rowIdx st.old_df old_index
  { st with new_df := p.1, old_df := p.2,
            old_df_copy := st.old_df_copy.filter (fun t => t.idx ≠ old_index) }

/-- Write `"Investigate"` into the `action` cell of one `new_df` row. -/
def setInvestigate (new_df : List PlaidRow) (rowIdx : Int) : List PlaidRow :=
  new_df.map (fun r => if r.idx == rowIdx then { r with action := some "Investigate" } else r)

/-- Shallow embedding of one iteration of the `find_duplicates` row loop
(lib/find_duplicates.py lines 82–171, `old_type="mint"`,
`update_fn=report_findings`).  The row is read live from `new_df` by its index
label; a row already marked `Delete`/`Duplicate` is skipped.  At the
multi-candidate prompt exactly one input is consumed: both the `try` branch and
the `except ValueError` branch set `need_user_input = False`, so the `while`
body runs once.  An empty input selects `matches.index[len(matches)-1]`, an
integer input is used as the index directly, and an unparsable input takes the
`ValueError` branch, which writes `action="Investigate"` and exits the loop.
With no pending inputs the run would block on `input()`; the model leaves the
state unchanged there. -/
def processRow (acct_name_df : Option AliasTable) (lookback_days lookahead_days : Int)
    (st : FDState) (rowIdx : Int) : FDState :=
  match st.new_df.find? (fun r => r.idx == rowIdx) with
  | none => st
  | some row =>
    if row.action == some "Delete" || row.action == some "Duplicate" then st
    else
      let matches1 := typeMatches (amountMatches st.old_df_copy row lookback_days lookahead_days) row.amount
      if matches1.isEmpty then { st with new_df := setInvestigate st.new_df rowIdx }
      else
        match filter_matches_by_account matches1 row.account_display_name acct_name_df with
        | [] => { st with new_df := setInvestigate st.new_df rowIdx }
        | [m] =>
          let p := report_findings st.new_df rowIdx st.old_df m.idx
          { st with new_df := p.1, old_df := p.2 }
        | m1 :: m2 :: ms =>
          match st.inputs with
          | [] => st
          | u :: rest =>
            let st1 := { st with inputs := rest, prompts := st.prompts + 1 }
            if u == "" then
              applySelection st1 rowIdx ((m1 :: m2 :: ms).getLastD m1).idx
            else
              match parsePyInt u with
              | some n => applySelection st1 rowIdx n
              | none => { st1 with new_df := setInvestigate st1.new_df rowIdx }

/-- Shallow embedding of `find_duplicates` (lib/find_duplicates.py lines
29–173) for `old_type="mint"`: `old_df_copy = old_df.copy()`, then every row of
`new_df` is processed in order. -/
def find_duplicates (new_df : List PlaidRow) (old_df : List MintRow)
    (acct_name_df : Option AliasTable) (lookback_days lookahead_days : Int)
    (inputs : List String) : FDState :=
  (new_df.map (fun r => r.idx)).foldl (processRow acct_name_df lookback_days lookahead_days)
    { new_df := new_df, old_df := old_df, old_df_copy := old_df,
      inputs := inputs, prompts := 0 }

/-! ## Data model for the self-set detector and the external store -/

/-- A row of the lunchmoney dataframe handed to the self-set duplicate
detector.  The `tags` column holds tag objects; each is modelled by its
`name`. -/
structure LMRow where
  idx : Int
  id : Int
  date : Int
  amount : Int
  payee : String
  category_name : String
  account_display_name : String
  notes : String
  tags : List String
  deriving Repr, DecidableEq

/-- A transaction record as held by the external store (the Lunch Money API
surface), with the fields a `TransactionUpdateObject` may touch plus a few
untouched ones. -/
structure StoreTransaction where
  id : Int
  date : Int
  amount : Int
  payee : String
  notes : String
  tags : List String
  deriving Repr, DecidableEq

/-- The fields of a `TransactionUpdateObject`: present keys overwrite the
record's fields, absent keys leave them alone. -/
structure UpdateObj where
  payee : Option String := none
  notes : Option String := none
  tags : Option (List String) := none
  deriving Repr, DecidableEq

/-- Shallow embedding of `lunchmoney_update_transaction` (lib/transactions.py
lines 72–79): a PUT of the update object against the record with the given id;
records with other ids are untouched and no record is created or removed. -/
def lunchmoney_update_transaction (store : List StoreTransaction) (id : Int)
    (u : UpdateObj) : List StoreTransaction :=
  store.map (fun t =>
    if t.id == id then
      { t with payee := u.payee.getD t.payee, notes := u.notes.getD t.notes,
               tags := u.tags.getD t.tags }
    else t)

/-- Shallow embedding of `lunchmoney_delete_transaction` (lib/transactions.py
lines 304–317).  `existing_tag_names` is the comma-joined tag-name string the
caller extracted from the displayed frame; the function appends `",Duplicate"`
and splits on commas (or uses `["Duplicate"]` when the string is empty), then
issues an update of the `tags` field only — the record is never removed. -/
def lunchmoney_delete_transaction (store : List StoreTransaction) (id : Int)
    (existing_tag_names : String) : List StoreTransaction :=
  let tags :=
    if existing_tag_names ≠ "" then pySplitComma (existing_tag_names ++ ",Duplicate")
    else ["Duplicate"]
  lunchmoney_update_transaction store id { tags := some tags }

/-! ## lib/find_and_process_dups.py: the self-set duplicate detector -/

/-- The skip-marker test of lib/find_and_process_dups.py lines 64–65: a tag
list counts as already human-confirmed when it carries `"Not-Duplicate"` or
`"SkipDupCheck"`. -/
def hasNotDupTag (tags : List String) : Bool :=
  tags.any (fun n => n == "Not-Duplicate" || n == "SkipDupCheck")

/-- Mutable state of one per-account pass: the live dataframe (`df`, whose tag
lists mutate in place), the working copy `df_copy`, `deleted_indices`, the
accumulated `ids_to_delete`, the external store, and the trace of candidate
groups displayed to the user (source row paired with the candidates shown
beside it). -/
structure AccState where
  dfLive : List LMRow
  df_copy : List LMRow
  deleted : List Int
  ids_to_delete : List Int
  store : List StoreTransaction
  offered : List (LMRow × List LMRow)
  deriving Repr, DecidableEq

/-- Append the `SkipDupCheck` tag object to the tag list of the row with the
given index label, if present (lib/find_and_process_dups.py lines 169–172). -/
def appendSkip (l : List LMRow) (i : Int) : List LMRow :=
  l.map (fun r => if r.idx == i then { r with tags := r.tags ++ ["SkipDupCheck"] } else r)

/-- One iteration of `interactive_tag_non_dup` (lib/find_and_process_dups.py
lines 139–172) for a single frame member: consume the `p`/`n`/enter prompt
answer (and the replacement text when asked for), build the update object —
note the `"Not-Duplicate" not in match["tags"]` test is a substring test on the
comma-joined string, and `updated_tags` always contains a comma after
`",Not-Duplicate"` is appended, so the `split(",")` arm is taken — and push it
to the store when nonempty.  Returns the remaining inputs and the store. -/
def tagNonDupStep (m : LMRow) (inputs : List String)
    (store : List StoreTransaction) : List String × List StoreTransaction :=
  match inputs with
  | [] => ([], store)
  | resp :: rest =>
    let ans :=
      if pyLower resp == "p" then
        match rest with
        | [] => ([], ({ } : UpdateObj))
        | t :: rest2 => (rest2, ({ payee := some t } : UpdateObj))
      else if pyLower resp == "n" then
        match rest with
        | [] => ([], ({ } : UpdateObj))
        | t :: rest2 => (rest2, ({ notes := some t } : UpdateObj))
      else (rest, ({ } : UpdateObj))
    let tagsStr := pyJoinComma m.tags
    let upd :=
      if containsSub "Not-Duplicate".data tagsStr.data then ans.2
      else if tagsStr ≠ "" then
        let tagList := pySplitComma (tagsStr ++ ",Not-Duplicate")
        let tagList :=
          if tagList.contains "SkipDupCheck" then tagList.filter (fun tg => tg ≠ "SkipDupCheck")
          else tagList
        { ans.2 with tags := some tagList }
      else { ans.2 with tags := some ["Not-Duplicate"] }
    let store2 := if upd ≠ ({ } : UpdateObj) then lunchmoney_update_transaction store m.id upd else store
    (ans.1, store2)

/-- Shallow embedding of `interactive_tag_non_dup` (lib/find_and_process_dups.py
lines 133–174): walk the displayed frame, prompt per member, push updates to
the store, and append the `SkipDupCheck` tag object locally in both dataframes
so the run does not revisit these rows. -/
def tagNonDup : List LMRow → List String → List LMRow → List LMRow →
    List StoreTransaction → List String × List LMRow × List LMRow × List StoreTransaction
  | [], inputs, d1, d2, store => (inputs, d1, d2, store)
  | m :: ms, inputs, d1, d2, store =>
    let s := tagNonDupStep m inputs store
    tagNonDup ms s.1 (appendSkip d1 m.idx) (appendSkip d2 m.idx) s.2

/-- Record the display of the current frame (the `print` at the top of the
outer `while len(matches) > 1` loop) in the trace, splitting off the source
row; an inner retry re-prompts without redisplaying. -/
def displaySt (row : LMRow) (display : Bool) (frame : List LMRow) (st : AccState) :
    AccState :=
  if display then
    { st with offered := st.offered ++ [(row, frame.filter (fun t => t.idx ≠ row.idx))] }
  else st

/-- Shallow embedding of the interactive block of
`find_duplicates_for_one_account` (lib/find_and_process_dups.py lines 86–129):
the outer `while len(matches) > 1` loop displays the frame and each prompt
consumes one input.  An integer that is neither the source index nor a frame
label re-prompts without redisplay (`display := false`); a valid integer
appends the chosen record's id to `ids_to_delete`, tags it `Duplicate` in the
store, records it in `deleted_indices` and drops it from `df_copy` when it is
not the source row, and drops it from the frame; an unparsable input runs
`interactive_tag_non_dup` over the whole frame and empties it.  When inputs
run out the real program blocks; the model stops.  The frame-lookup failure (a
repeated selection of the source index after it left the frame) raises
`KeyError` in the source; the model stops there too. -/
def interactLoop (row : LMRow) (display : Bool) :
    List String → List LMRow → AccState → AccState × List String
  | inputs, frame, st =>
    if frame.length ≤ 1 then (st, inputs)
    else
      let st := displaySt row display frame st
      match inputs with
      | [] => (st, [])
      | u :: rest =>
        match parsePyInt u with
        | none =>
          let r := tagNonDup frame rest st.dfLive st.df_copy st.store
          ({ st with dfLive := r.2.1, df_copy := r.2.2.1, store := r.2.2.2 }, r.1)
        | some n =>
          if n ≠ row.idx ∧ ¬ frame.any (fun t => t.idx == n) then
            interactLoop row false rest frame st
          else
            match frame.find? (fun t => t.idx == n) with
            | none => (st, rest)
            | some chosen =>
              let st := { st with
                ids_to_delete := st.ids_to_delete ++ [chosen.id],
                store := lunchmoney_delete_transaction st.store chosen.id (pyJoinComma chosen.tags) }
              let st :=
                if n ≠ row.idx then
                  { st with deleted := st.deleted ++ [n],
                            df_copy := st.df_copy.filter (fun t => t.idx ≠ n) }
                else st
              interactLoop row true rest (frame.filter (fun t => t.idx ≠ n)) st

/-- One iteration of the `find_duplicates_for_one_account` row loop
(lib/find_and_process_dups.py lines 49–129).  `iterrows` yields rows of `df` as
iteration reaches them, so tag mutations made by `interactive_tag_non_dup` are
visible: the row is re-read from the live dataframe by its index label.  A row
recorded in `deleted_indices` is skipped; otherwise its label is dropped from
`df_copy`, candidates are the remaining rows with equal amount and date at most
`lookback_days` earlier, candidates carrying a skip-marker tag are dropped when
the source row carries one (continuing when none remain), and any surviving
group is shown to the user with the source row prepended. -/
def stepRow (lookback_days : Int) (st : AccState) (r : LMRow) (inputs : List String) :
    AccState × List String :=
  let row := (st.dfLive.find? (fun x => x.idx == r.idx)).getD r
  if st.deleted.contains row.idx then (st, inputs)
  else
    let copy1 := st.df_copy.filter (fun t => t.idx ≠ row.idx)
    let st := { st with df_copy := copy1 }
    let matches0 := copy1.filter (fun t =>
      t.amount == row.amount && t.date ≥ row.date - lookback_days)
    if matches0.length > 0 then
      if hasNotDupTag row.tags then
        let matches1 := matches0.filter (fun t => ¬ hasNotDupTag t.tags)
        if matches1.length ≤ 0 then (st, inputs)
        else interactLoop row true inputs (row :: matches1) st
      else interactLoop row true inputs (row :: matches0) st
    else (st, inputs)

/-- The row loop of `find_duplicates_for_one_account` over the whole
(sorted, single-account) dataframe. -/
def runAccount (lookback_days : Int) : AccState → List String → List LMRow →
    AccState × List String
  | st, inputs, [] => (st, inputs)
  | st, inputs, r :: rest =>
    let s := stepRow lookback_days st r inputs
    runAccount lookback_days s.1 s.2 rest

/-- Shallow embedding of `find_duplicates_for_one_account`
(lib/find_and_process_dups.py lines 40–130): fresh `deleted_indices`, a copy of
the dataframe to search, then the row loop. -/
def find_duplicates_for_one_account (df : List LMRow) (lookback_days : Int)
    (ids_to_delete : List Int) (store : List StoreTransaction)
    (inputs : List String) : AccState × List String :=
  runAccount lookback_days
    { dfLive := df, df_copy := df, deleted := [], ids_to_delete := ids_to_delete,
      store := store, offered := [] } inputs df

/-- Insert a row into a list kept in date-descending order. -/
def insertDesc (r : LMRow) : List LMRow → List LMRow
  | [] => [r]
  | x :: xs => if x.date ≥ r.date then x :: insertDesc r xs else r :: x :: xs

/-- The `sort_values(by="date", ascending=False)` step: an insertion sort by
descending date (only the ordering matters to the engine). -/
def sortByDateDesc (l : List LMRow) : List LMRow := l.foldr insertDesc []

/-- First-occurrence-order deduplication, pandas `Series.unique()`. -/
def uniqueInOrder (l : List String) : List String :=
  l.foldl (fun acc a => if acc.contains a then acc else acc ++ [a]) []

/-- Result of a whole self-set detector run. -/
structure RunResult where
  ids_to_delete : List Int
  offered : List (LMRow × List LMRow)
  store : List StoreTransaction
  inputs : List String
  deriving Repr, DecidableEq

/-- Shallow embedding of `find_duplicate_transactions`
(lib/find_and_process_dups.py lines 14–37): partition the dataframe by account
name, sort each partition by descending date, and run the per-account search,
threading `ids_to_delete` (and, in the model, the store, the remaining inputs
and the display trace) across partitions. -/
def find_duplicate_transactions (df : List LMRow) (lookback_days : Int)
    (store : List StoreTransaction) (inputs : List String) : RunResult :=
  (uniqueInOrder (df.map (fun r => r.account_display_name))).foldl
    (fun acc a =>
      let dfa := sortByDateDesc (df.filter (fun r => r.account_display_name == a))
      let s := find_duplicates_for_one_account dfa lookback_days acc.ids_to_delete acc.store acc.inputs
      { ids_to_delete := s.1.ids_to_delete, offered := acc.offered ++ s.1.offered,
        store := s.1.store, inputs := s.2 })
    { ids_to_delete := [], offered := [], store := store, inputs := inputs }

/-! ## Concrete rows used in examples and witnesses -/

/-- Source row of the sign-normalization scenario: amount `-42.50` in the
signed lunchmoney convention. -/
def srcSign : PlaidRow :=
  { idx := 0, id := 500, date := 10, amount := -4250, payee := "Coffee",
    account_display_name := "Acme Bank", action := none, related_id := none }

/-- Typed mint counterpart of `srcSign`: magnitude `42.50`, type `credit`. -/
def mintCredit : MintRow :=
  { idx := 7, Date := 12, Amount := 4250, Description := "Coffee",
    TransactionType := "credit", AccountName := "Acme Bank",
    action := none, related_id := none }

/-- Same-magnitude mint row with type `debit`. -/
def mintDebit : MintRow := { mintCredit with idx := 8, TransactionType := "debit" }

/-- C4.  The windowed candidate finder's date predicate is a closed interval:
a comparison record passes the date test exactly when its date lies in
`[record.date - lookback_days, record.date + lookahead_days]`; with lookback 1
and lookahead 7 the dates `record.date - 1` and `record.date + 7` are included
and one day further on either side is excluded; and the window stage of the
finder tests exactly this predicate (together with amount equality) on each
comparison record. -/
theorem date_window_closed_interval (d x lb la : Int) :
    (dateInWindow d lb la x = true ↔ d - lb ≤ x ∧ x ≤ d + la)
    ∧ dateInWindow d 1 7 (d - 1) = true
    ∧ dateInWindow d 1 7 (d + 7) = true
    ∧ dateInWindow d 1 7 (d - 2) = false
    ∧ dateInWindow d 1 7 (d + 8) = false
    ∧ (∀ (old : List MintRow) (row : PlaidRow) (t : MintRow),
        t ∈ amountMatches old row lb la ↔
          t ∈ old ∧ dateInWindow row.date lb la t.Date = true
            ∧ t.Amount = (row.amount.natAbs : Int)) := by
  refine ⟨?_, ?_, ?_, ?_, ?_, ?_⟩
  · simp only [dateInWindow, Bool.and_eq_true, decide_eq_true_eq, ge_iff_le]
    omega
  · simp only [dateInWindow, Bool.and_eq_true, decide_eq_true_eq, ge_iff_le]
    omega
  · simp only [dateInWindow, Bool.and_eq_true, decide_eq_true_eq, ge_iff_le]
    omega
  · simp only [dateInWindow, Bool.and_eq_false_iff, decide_eq_false_iff_not, ge_iff_le]
    omega
  · simp only [dateInWindow, Bool.and_eq_false_iff, decide_eq_false_iff_not, ge_iff_le]
    omega
  · intro old row t
    simp [amountMatches, List.mem_filter, and_assoc]

/-- C5.  Against a typed (mint) comparison set the finder replaces the source
amount by its absolute value before testing equality, and for a negative
source amount keeps exactly the candidates typed `"credit"` (a positive one
would keep `"debit"`); concretely, source amount `-42.50` matches the
`credit`-typed magnitude-`42.50` row and not the `debit`-typed one. -/
theorem mint_sign_normalization (old : List MintRow) (row : PlaidRow)
    (lb la : Int) (hneg : row.amount < 0) :
    (∀ t ∈ amountMatches old row lb la, t.Amount = -row.amount)
    ∧ typeMatches (amountMatches old row lb la) row.amount
        = (amountMatches old row lb la).filter (fun t => t.TransactionType == "credit")
    ∧ candidateSet [mintCredit, mintDebit] srcSign none 1 7 = [mintCredit] := by
  have habs : (row.amount.natAbs : Int) = -row.amount := by omega
  refine ⟨?_, ?_, ?_⟩
  · intro t ht
    simp only [amountMatches, List.mem_filter, Bool.and_eq_true, beq_iff_eq] at ht
    omega
  · simp only [typeMatches, if_neg (by omega : ¬ row.amount > 0)]
  · rfl

/-- Witness for `mint_sign_normalization` at the concrete scenario rows. -/
theorem mint_sign_normalization_witness :
    (∀ t ∈ amountMatches [mintCredit, mintDebit] srcSign 1 7, t.Amount = -srcSign.amount)
    ∧ typeMatches (amountMatches [mintCredit, mintDebit] srcSign 1 7) srcSign.amount
        = (amountMatches [mintCredit, mintDebit] srcSign 1 7).filter
            (fun t => t.TransactionType == "credit")
    ∧ candidateSet [mintCredit, mintDebit] srcSign none 1 7 = [mintCredit] :=
  mint_sign_normalization [mintCredit, mintDebit] srcSign 1 7 (by decide)

/-! ## Claim C2: account alias lookup -/

/-- The alias table of the spec scenario: canonical column `"Chase Checking"`
with mint spellings `"CHK...1234"` and `"Chase Chk"`. -/
def chaseTbl : AliasTable := [("Chase Checking", ["CHK...1234", "Chase Chk"])]

/-- A mint row whose account name is the alias `"CHK...1234"`. -/
def mintChk : MintRow :=
  { idx := 5, Date := 12, Amount := 10000, Description := "d",
    TransactionType := "debit", AccountName := "CHK...1234",
    action := none, related_id := none }

/-- C2 counterexample.  The source account name `"chase checking"` equals the
canonical column name `"Chase Checking"` up to case, and the comparison row's
normalized account name is among that column's normalized aliases, yet
`filter_matches_by_account` rejects the row: the column lookup is
case-sensitive, so the call falls back to exact normalized equality with the
source name. -/
theorem alias_lookup_case_sensitive_cex :
    normalizeAcct "chase checking" = normalizeAcct "Chase Checking"
    ∧ (["CHK...1234", "Chase Chk"].map normalizeAcct).contains
        (normalizeAcct mintChk.AccountName) = true
    ∧ filter_matches_by_account [mintChk] "chase checking" (some chaseTbl) = [] := by
  refine ⟨by decide, by decide, by decide⟩

/-- C2 amended.  Alias-based account equivalence fires only when the source
account name, stripped of surrounding whitespace but with its case preserved,
exactly equals an alias-table column name; in that case a comparison record is
kept exactly when its lower-cased, stripped account name is among the column's
lower-cased, stripped aliases.  When the column lookup misses, a record is
kept exactly when its normalized name equals the lower-cased stripped source
name.  The spec scenario therefore works only with the canonical casing:
source `" Chase Checking "` accepts the record named `"CHK...1234"`. -/
theorem account_alias_resolution (mts : List MintRow) (account : String)
    (tbl : AliasTable) (aliases : List String)
    (hcol : tbl.lookup (pyStrip account) = some aliases) :
    (∀ m, m ∈ filter_matches_by_account mts account (some tbl) ↔
       m ∈ mts ∧ normalizeAcct m.AccountName ∈ aliases.map normalizeAcct)
    ∧ (∀ (mts2 : List MintRow) (account2 : String) (tbl2 : AliasTable),
        tbl2.lookup (pyStrip account2) = none →
        ∀ m, m ∈ filter_matches_by_account mts2 account2 (some tbl2) ↔
          m ∈ mts2 ∧ normalizeAcct m.AccountName = pyLower (pyStrip account2))
    ∧ filter_matches_by_account [mintChk] " Chase Checking " (some chaseTbl) = [mintChk] := by
  refine ⟨?_, ?_, by decide⟩
  · intro m
    simp [filter_matches_by_account, hcol, List.mem_filter]
  · intro mts2 account2 tbl2 hmiss m
    simp [filter_matches_by_account, hmiss, List.mem_filter]

/-- Witness for `account_alias_resolution` at the spec's alias table. -/
theorem account_alias_resolution_witness :
    (∀ m, m ∈ filter_matches_by_account [mintChk] "Chase Checking" (some chaseTbl) ↔
       m ∈ [mintChk] ∧ normalizeAcct m.AccountName ∈ ["CHK...1234", "Chase Chk"].map normalizeAcct)
    ∧ (∀ (mts2 : List MintRow) (account2 : String) (tbl2 : AliasTable),
        tbl2.lookup (pyStrip account2) = none →
        ∀ m, m ∈ filter_matches_by_account mts2 account2 (some tbl2) ↔
          m ∈ mts2 ∧ normalizeAcct m.AccountName = pyLower (pyStrip account2))
    ∧ filter_matches_by_account [mintChk] " Chase Checking " (some chaseTbl) = [mintChk] :=
  account_alias_resolution [mintChk] "Chase Checking" chaseTbl ["CHK...1234", "Chase Chk"]
    (by decide)

/-! ## Claim C6: single-candidate auto-resolution -/

/-- Account filtering of an empty candidate list yields the empty list. -/
theorem filter_matches_by_account_nil (account : String) (t : Option AliasTable) :
    filter_matches_by_account [] account t = [] := by
  unfold filter_matches_by_account
  cases t with
  | none => rfl
  | some tbl => cases h : tbl.lookup (pyStrip account) <;> simp [h]

/-- C6.  When the window, type and account stages leave exactly one candidate,
the reconciler immediately records the pair: the source row is classified
`Duplicate` with `related_id` the candidate's index, the candidate is
classified `Match` with `related_id` the source row's transaction id, and
nothing else changes — in particular no input is consumed and no prompt is
issued (`inputs` and `prompts` are untouched), and the candidate stays in the
working copy. -/
theorem single_candidate_auto_resolution
    (acct_name_df : Option AliasTable) (lb la : Int) (st : FDState) (rowIdx : Int)
    (row : PlaidRow) (m : MintRow)
    (hfind : st.new_df.find? (fun r => r.idx == rowIdx) = some row)
    (hskip1 : row.action ≠ some "Delete") (hskip2 : row.action ≠ some "Duplicate")
    (hcand : candidateSet st.old_df_copy row acct_name_df lb la = [m]) :
    processRow acct_name_df lb la st rowIdx =
      { st with
        new_df := st.new_df.map (fun r =>
          if r.idx == rowIdx then
            { r with action := some "Duplicate", related_id := some m.idx } else r),
        old_df := st.old_df.map (fun r =>
          if r.idx == m.idx then
            { r with action := some "Match", related_id := some row.id } else r) } := by
  rw [candidateSet] at hcand
  have hbeq : (row.action == some "Delete" || row.action == some "Duplicate") = false := by
    simp [hskip1, hskip2]
  have hM : ¬ typeMatches (amountMatches st.old_df_copy row lb la) row.amount = [] := by
    intro h
    rw [h, filter_matches_by_account_nil] at hcand
    exact absurd hcand (by simp)
  simp only [processRow, hfind, hbeq, Bool.false_eq_true, if_false, List.isEmpty_iff,
    hM, hcand, report_findings]
  simp

/-- Source row of the end-to-end scenario: `100.00` on day 10 from
`"Chase Checking"`. -/
def e2eSrc : PlaidRow :=
  { idx := 0, id := 900, date := 10, amount := 10000, payee := "Rent",
    account_display_name := "Chase Checking", action := none, related_id := none }

/-- In-window comparison row under the alias `"CHK...1234"`. -/
def e2eMintA : MintRow :=
  { idx := 11, Date := 12, Amount := 10000, Description := "Rent",
    TransactionType := "debit", AccountName := "CHK...1234",
    action := none, related_id := none }

/-- In-window comparison row of a different account. -/
def e2eMintB : MintRow :=
  { idx := 12, Date := 9, Amount := 10000, Description := "Rent",
    TransactionType := "debit", AccountName := "Savings",
    action := none, related_id := none }

/-- Initial reconciler state of the end-to-end scenario. -/
def e2eSt : FDState :=
  { new_df := [e2eSrc], old_df := [e2eMintA, e2eMintB],
    old_df_copy := [e2eMintA, e2eMintB], inputs := [], prompts := 0 }

/-- Witness for `single_candidate_auto_resolution`: the spec's end-to-end
scenario with lookback 1, lookahead 7 and the Chase alias table leaves exactly
the aliased row as candidate and resolves automatically. -/
theorem single_candidate_auto_resolution_witness :
    candidateSet e2eSt.old_df_copy e2eSrc (some chaseTbl) 1 7 = [e2eMintA]
    ∧ processRow (some chaseTbl) 1 7 e2eSt 0 =
      { e2eSt with
        new_df := e2eSt.new_df.map (fun r =>
          if r.idx == 0 then
            { r with action := some "Duplicate", related_id := some e2eMintA.idx } else r),
        old_df := e2eSt.old_df.map (fun r =>
          if r.idx == e2eMintA.idx then
            { r with action := some "Match", related_id := some e2eSrc.id } else r) } :=
  ⟨by decide,
   single_candidate_auto_resolution (some chaseTbl) 1 7 e2eSt 0 e2eSrc e2eMintA
     (by decide) (by decide) (by decide) (by decide)⟩

/-! ## Claim C10: empty input at the multi-candidate prompt -/

/-- C10.  At the multi-candidate prompt an empty input line is accepted as a
confirmation: the selection defaults to `matches.index[len(matches)-1]`, the
last candidate of the displayed set.  The source row is classified `Duplicate`
against that candidate, the candidate gets `Match` back, and it is dropped
from the working copy — the empty line is not a "none of these" signal (no
`Investigate` is written).  Exactly one input is consumed. -/
theorem empty_input_selects_last_candidate
    (acct_name_df : Option AliasTable) (lb la : Int) (st : FDState) (rowIdx : Int)
    (row : PlaidRow) (m1 m2 : MintRow) (ms : List MintRow) (rest : List String)
    (hfind : st.new_df.find? (fun r => r.idx == rowIdx) = some row)
    (hskip1 : row.action ≠ some "Delete") (hskip2 : row.action ≠ some "Duplicate")
    (hcand : candidateSet st.old_df_copy row acct_name_df lb la = m1 :: m2 :: ms)
    (hinp : st.inputs = "" :: rest) :
    processRow acct_name_df lb la st rowIdx =
      { st with
        new_df := st.new_df.map (fun r =>
          if r.idx == rowIdx then
            { r with action := some "Duplicate",
                     related_id := some ((m1 :: m2 :: ms).getLastD m1).idx } else r),
        old_df := st.old_df.map (fun r =>
          if r.idx == ((m1 :: m2 :: ms).getLastD m1).idx then
            { r with action := some "Match", related_id := some row.id } else r),
        old_df_copy := st.old_df_copy.filter
          (fun t => t.idx ≠ ((m1 :: m2 :: ms).getLastD m1).idx),
        inputs := rest,
        prompts := st.prompts + 1 } := by
  rw [candidateSet] at hcand
  have hbeq : (row.action == some "Delete" || row.action == some "Duplicate") = false := by
    simp [hskip1, hskip2]
  have hM : ¬ typeMatches (amountMatches st.old_df_copy row lb la) row.amount = [] := by
    intro h
    rw [h, filter_matches_by_account_nil] at hcand
    exact absurd hcand (by simp)
  simp only [processRow, hfind, hbeq, Bool.false_eq_true, if_false, List.isEmpty_iff,
    hM, hcand, hinp, applySelection, report_findings]
  simp

/-- Source row of the multi-candidate prompt scenarios. -/
def promptSrc : PlaidRow :=
  { idx := 0, id := 700, date := 10, amount := -100, payee := "Refund",
    account_display_name := "Acme Bank", action := none, related_id := none }

/-- First of three equal candidates. -/
def promptM1 : MintRow :=
  { idx := 21, Date := 10, Amount := 100, Description := "Refund",
    TransactionType := "credit", AccountName := "Acme Bank",
    action := none, related_id := none }

/-- Second of three equal candidates. -/
def promptM2 : MintRow := { promptM1 with idx := 22 }

/-- Third (last-displayed) of three equal candidates. -/
def promptM3 : MintRow := { promptM1 with idx := 23 }

/-- Reconciler state with the three candidates and an empty input pending. -/
def promptSt : FDState :=
  { new_df := [promptSrc], old_df := [promptM1, promptM2, promptM3],
    old_df_copy := [promptM1, promptM2, promptM3], inputs := [""], prompts := 0 }

/-- Witness for `empty_input_selects_last_candidate`: with three displayed
candidates an empty line confirms the last one, index 23. -/
theorem empty_input_selects_last_candidate_witness :
    processRow none 1 7 promptSt 0 =
      { promptSt with
        new_df := promptSt.new_df.map (fun r =>
          if r.idx == 0 then
            { r with action := some "Duplicate",
                     related_id := some (([promptM1, promptM2, promptM3].getLastD promptM1).idx) } else r),
        old_df := promptSt.old_df.map (fun r =>
          if r.idx == (([promptM1, promptM2, promptM3].getLastD promptM1).idx) then
            { r with action := some "Match", related_id := some promptSrc.id } else r),
        old_df_copy := promptSt.old_df_copy.filter
          (fun t => t.idx ≠ ([promptM1, promptM2, promptM3].getLastD promptM1).idx),
        inputs := [],
        prompts := 1 } :=
  empty_input_selects_last_candidate none 1 7 promptSt 0 promptSrc promptM1 promptM2
    [promptM3] [] (by decide) (by decide) (by decide) (by decide) (by decide)

/-! ## Claim C1: invalid input at the multi-candidate prompt -/

/-- Reconciler state with the three candidates and the unparsable input `"x"`
followed by a spare input that a re-prompt would consume. -/
def promptStBad : FDState :=
  { promptSt with inputs := ["x", "0"] }

/-- C1 counterexample.  At the multi-candidate prompt the unparsable input
`"x"` is not re-prompted: the `except ValueError` arm writes
`action="Investigate"` on the source row (changing its classification) and
sets `need_user_input = False`, so only one input is consumed — the spare
second input is still pending, and the prompt counter shows a single prompt.
The claim that such input re-prompts without changing the classification of
the source record is false at this input. -/
theorem invalid_input_reprompt_cex :
    parsePyInt "x" = none
    ∧ (processRow none 1 7 promptStBad 0).new_df
        = [{ promptSrc with action := some "Investigate" }]
    ∧ (processRow none 1 7 promptStBad 0).inputs = ["0"]
    ∧ (processRow none 1 7 promptStBad 0).prompts = 1 := by
  refine ⟨by decide, by decide, by decide, by decide⟩

/-- C1 amended.  At the multi-candidate prompt the resolver never re-prompts:
an unparsable input is treated as a terminal "transaction missing from Mint"
decision — the source row is classified `Investigate`, no candidate is
consumed (`old_df` and the working copy are unchanged), and exactly one input
is read; empty or integer input is likewise treated as a decision on the first
read. -/
theorem unparsable_input_treated_as_none
    (acct_name_df : Option AliasTable) (lb la : Int) (st : FDState) (rowIdx : Int)
    (row : PlaidRow) (m1 m2 : MintRow) (ms : List MintRow) (u : String)
    (rest : List String)
    (hfind : st.new_df.find? (fun r => r.idx == rowIdx) = some row)
    (hskip1 : row.action ≠ some "Delete") (hskip2 : row.action ≠ some "Duplicate")
    (hcand : candidateSet st.old_df_copy row acct_name_df lb la = m1 :: m2 :: ms)
    (hinp : st.inputs = u :: rest) (hne : u ≠ "") (hparse : parsePyInt u = none) :
    processRow acct_name_df lb la st rowIdx =
      { st with
        new_df := setInvestigate st.new_df rowIdx,
        inputs := rest,
        prompts := st.prompts + 1 } := by
  rw [candidateSet] at hcand
  have hbeq : (row.action == some "Delete" || row.action == some "Duplicate") = false := by
    simp [hskip1, hskip2]
  have hM : ¬ typeMatches (amountMatches st.old_df_copy row lb la) row.amount = [] := by
    intro h
    rw [h, filter_matches_by_account_nil] at hcand
    exact absurd hcand (by simp)
  have hub : (u == "") = false := by simp [hne]
  simp only [processRow, hfind, hbeq, Bool.false_eq_true, if_false, List.isEmpty_iff,
    hM, hcand, hinp, hub, hparse]

/-- Witness for `unparsable_input_treated_as_none` at the concrete prompt
scenario with input `"x"`. -/
theorem unparsable_input_treated_as_none_witness :
    processRow none 1 7 promptStBad 0 =
      { promptStBad with
        new_df := setInvestigate promptStBad.new_df 0,
        inputs := ["0"],
        prompts := 1 } :=
  unparsable_input_treated_as_none none 1 7 promptStBad 0 promptSrc promptM1 promptM2
    [promptM3] "x" ["0"] (by decide) (by decide) (by decide) (by decide) (by decide)
    (by decide) (by decide)

/-! ## Claim C3: exclusion of already-resolved comparison records -/

/-- Membership in the account-filtered list implies membership in the input
list (every branch of `filter_matches_by_account` is a filter). -/
theorem mem_of_mem_filter_matches_by_account {m : MintRow} {mts : List MintRow}
    {account : String} {t : Option AliasTable}
    (h : m ∈ filter_matches_by_account mts account t) : m ∈ mts := by
  unfold filter_matches_by_account at h
  split at h
  · dsimp only at h
    split at h
    · exact (List.mem_filter.mp h).1
    · exact (List.mem_filter.mp h).1
  · exact (List.mem_filter.mp h).1

/-- Membership in the candidate set implies membership in the working copy. -/
theorem mem_of_mem_candidateSet {m : MintRow} {copy : List MintRow} {row : PlaidRow}
    {acct : Option AliasTable} {lb la : Int}
    (h : m ∈ candidateSet copy row acct lb la) : m ∈ copy := by
  have h1 := mem_of_mem_filter_matches_by_account h
  unfold typeMatches at h1
  by_cases hp : row.amount > 0
  · rw [if_pos hp] at h1
    exact (List.mem_filter.mp (List.mem_filter.mp h1).1).1
  · rw [if_neg hp] at h1
    exact (List.mem_filter.mp (List.mem_filter.mp h1).1).1

/-- First source row of the re-offer scenario. -/
def reofferPA : PlaidRow :=
  { idx := 0, id := 100, date := 5, amount := -100, payee := "a",
    account_display_name := "Acme", action := none, related_id := none }

/-- Second source row of the re-offer scenario (identical amount and date). -/
def reofferPB : PlaidRow := { reofferPA with idx := 1, id := 101 }

/-- The single comparison row both source rows match. -/
def reofferMX : MintRow :=
  { idx := 9, Date := 5, Amount := 100, Description := "x",
    TransactionType := "credit", AccountName := "Acme",
    action := none, related_id := none }

/-- Initial reconciler state of the re-offer scenario. -/
def reofferSt : FDState :=
  { new_df := [reofferPA, reofferPB], old_df := [reofferMX],
    old_df_copy := [reofferMX], inputs := [], prompts := 0 }

/-- State after the first source row has been processed. -/
def reofferSt1 : FDState := processRow none 1 7 reofferSt 0

/-- C3 counterexample.  After the first source row is auto-resolved against
the lone candidate (classification `Duplicate`/`Match` recorded on both
sides), that same comparison record is still in the working copy and is
offered again — as the full candidate set — for the second source row; the
whole run ends with both source rows linked to the one comparison record.
Confirmed records are only dropped from the working copy on the interactive
path, not on the single-candidate path, and no classification- or tag-based
exclusion exists in the cross-set reconciler. -/
theorem resolved_candidate_reoffered_cex :
    reofferSt1.new_df
      = [{ reofferPA with action := some "Duplicate", related_id := some 9 }, reofferPB]
    ∧ reofferSt1.old_df
      = [{ reofferMX with action := some "Match", related_id := some 100 }]
    ∧ candidateSet reofferSt1.old_df_copy reofferPB none 1 7 = [reofferMX]
    ∧ (find_duplicates [reofferPA, reofferPB] [reofferMX] none 1 7 []).new_df
      = [{ reofferPA with action := some "Duplicate", related_id := some 9 },
         { reofferPB with action := some "Duplicate", related_id := some 9 }] := by
  refine ⟨by decide, by decide, by decide, by decide⟩

/-- C3 amended.  Only interactively confirmed candidates are excluded from
later consideration: when a multi-candidate prompt resolves by an integer
input, the chosen label is dropped from the working copy, so no record with
that label remains and the windowed finder never offers one for any later
source row.  A candidate confirmed automatically on the single-candidate path
is not dropped and can be re-offered (see the counterexample). -/
theorem prompt_selection_not_reoffered
    (acct_name_df : Option AliasTable) (lb la : Int) (st : FDState) (rowIdx : Int)
    (row : PlaidRow) (m1 m2 : MintRow) (ms : List MintRow) (u : String)
    (rest : List String) (n : Int)
    (hfind : st.new_df.find? (fun r => r.idx == rowIdx) = some row)
    (hskip1 : row.action ≠ some "Delete") (hskip2 : row.action ≠ some "Duplicate")
    (hcand : candidateSet st.old_df_copy row acct_name_df lb la = m1 :: m2 :: ms)
    (hinp : st.inputs = u :: rest) (hne : u ≠ "") (hparse : parsePyInt u = some n) :
    (∀ t ∈ (processRow acct_name_df lb la st rowIdx).old_df_copy, t.idx ≠ n)
    ∧ ∀ (row2 : PlaidRow) (acct2 : Option AliasTable) (lb2 la2 : Int),
        ∀ t ∈ candidateSet (processRow acct_name_df lb la st rowIdx).old_df_copy
            row2 acct2 lb2 la2, t.idx ≠ n := by
  rw [candidateSet] at hcand
  have hbeq : (row.action == some "Delete" || row.action == some "Duplicate") = false := by
    simp [hskip1, hskip2]
  have hM : ¬ typeMatches (amountMatches st.old_df_copy row lb la) row.amount = [] := by
    intro h
    rw [h, filter_matches_by_account_nil] at hcand
    exact absurd hcand (by simp)
  have hub : (u == "") = false := by simp [hne]
  have hstep : processRow acct_name_df lb la st rowIdx =
      applySelection { st with inputs := rest, prompts := st.prompts + 1 } rowIdx n := by
    simp only [processRow, hfind, hbeq, Bool.false_eq_true, if_false, List.isEmpty_iff,
      hM, hcand, hinp, hub, hparse]
  rw [hstep]
  have hcopy : ∀ t ∈ (applySelection { st with inputs := rest, prompts := st.prompts + 1 }
      rowIdx n).old_df_copy, t.idx ≠ n := by
    intro t ht
    simp only [applySelection] at ht
    simpa using (List.mem_filter.mp ht).2
  refine ⟨hcopy, ?_⟩
  intro row2 acct2 lb2 la2 t ht
  exact hcopy t (mem_of_mem_candidateSet ht)

/-- Prompt state whose pending input selects candidate index 22. -/
def promptStSel : FDState := { promptSt with inputs := ["22"] }

/-- Witness for `prompt_selection_not_reoffered`: after the input `"22"` is
accepted, no record labelled 22 is left in the working copy and the finder
cannot offer one again. -/
theorem prompt_selection_not_reoffered_witness :
    (∀ t ∈ (processRow none 1 7 promptStSel 0).old_df_copy, t.idx ≠ 22)
    ∧ ∀ (row2 : PlaidRow) (acct2 : Option AliasTable) (lb2 la2 : Int),
        ∀ t ∈ candidateSet (processRow none 1 7 promptStSel 0).old_df_copy
            row2 acct2 lb2 la2, t.idx ≠ 22 :=
  prompt_selection_not_reoffered none 1 7 promptStSel 0 promptSrc promptM1 promptM2
    [promptM3] "22" [] 22 (by decide) (by decide) (by decide) (by decide) (by decide)
    (by decide) (by decide)

/-! ## Claim C9: deletion is tag marking -/

/-- Splitting a separator-free word yields the word alone. -/
theorem pySplitAux_no_sep {sep : Char} {w : List Char} (hw : sep ∉ w) :
    pySplitAux sep w = (w, []) := by
  induction w with
  | nil => rfl
  | cons c cs ih =>
    have hc : c ≠ sep := fun e => hw (e ▸ List.mem_cons_self c cs)
    have hcs : sep ∉ cs := fun h => hw (List.mem_cons_of_mem _ h)
    simp [pySplitAux, ih hcs, hc]

/-- Splitting past a separator-free prefix peels it off whole. -/
theorem pySplitAux_append {sep : Char} {w s : List Char} (hw : sep ∉ w) :
    pySplitAux sep (w ++ sep :: s) =
      (w, (pySplitAux sep s).1 :: (pySplitAux sep s).2) := by
  induction w with
  | nil => simp [pySplitAux]
  | cons c cs ih =>
    have hc : c ≠ sep := fun e => hw (e ▸ List.mem_cons_self c cs)
    have hcs : sep ∉ cs := fun h => hw (List.mem_cons_of_mem _ h)
    simp [pySplitAux, ih hcs, hc]

/-- Splitting a join of separator-free words, followed by a separator and a
separator-free tail word, recovers the words. -/
theorem pySplitChars_join {sep : Char} {ws : List (List Char)} {t : List Char}
    (hws : ∀ w ∈ ws, sep ∉ w) (hne : ws ≠ []) (ht : sep ∉ t) :
    pySplitChars sep (pyJoinChars sep ws ++ sep :: t) = ws ++ [t] := by
  induction ws with
  | nil => exact absurd rfl hne
  | cons w ws2 ih =>
    cases ws2 with
    | nil =>
      have hw : sep ∉ w := hws w (List.mem_cons_self _ _)
      simp [pyJoinChars, pySplitChars, pySplitAux_append hw, pySplitAux_no_sep ht]
    | cons w2 ws3 =>
      have hw : sep ∉ w := hws w (List.mem_cons_self _ _)
      have hrest : ∀ x ∈ w2 :: ws3, sep ∉ x := fun x hx => hws x (List.mem_cons_of_mem _ hx)
      have hj : pyJoinChars sep (w :: w2 :: ws3) = w ++ sep :: pyJoinChars sep (w2 :: ws3) := rfl
      have hstep : pySplitChars sep (w ++ sep :: (pyJoinChars sep (w2 :: ws3) ++ sep :: t))
          = w :: pySplitChars sep (pyJoinChars sep (w2 :: ws3) ++ sep :: t) := by
        simp [pySplitChars, pySplitAux_append hw]
      rw [hj, List.append_assoc, List.cons_append, hstep, ih hrest (by simp)]
      rfl

/-- A join of tag names is the empty string only for no names or a single
empty name. -/
theorem pyJoinComma_ne_empty {names : List String} (h0 : names ≠ [])
    (h1 : names ≠ [""]) : pyJoinComma names ≠ "" := by
  cases names with
  | nil => exact absurd rfl h0
  | cons n ns =>
    cases ns with
    | nil =>
      intro h
      apply h1
      have hd : n.data = [] := by
        have := congrArg String.data h
        simpa [pyJoinComma, pyJoinChars] using this
      have : n = "" := by
        cases n with
        | mk l => cases hd; rfl
      rw [this]
    | cons n2 ns2 =>
      intro h
      have := congrArg String.data h
      simp only [pyJoinComma, pyJoinChars] at this
      cases hn : n.data with
      | nil => rw [hn] at this; exact absurd this (by simp)
      | cons c cs => rw [hn] at this; exact absurd this (by simp)

/-- The tag list computed by `lunchmoney_delete_transaction` is exactly the
existing names with `"Duplicate"` appended, provided no tag name contains a
comma and the tag list is not the single empty name. -/
theorem delete_tags_eq {names : List String}
    (hcomma : ∀ n ∈ names, ',' ∉ n.data) (hne : names ≠ [""]) :
    (if pyJoinComma names ≠ "" then pySplitComma (pyJoinComma names ++ ",Duplicate")
     else ["Duplicate"]) = names ++ ["Duplicate"] := by
  cases hn : names with
  | nil => simp [pyJoinComma, pyJoinChars]
  | cons n ns =>
    rw [← hn]
    have h0 : names ≠ [] := by rw [hn]; simp
    rw [if_pos (pyJoinComma_ne_empty h0 (by rw [hn] at hne ⊢; exact hne))]
    have hdata : (pyJoinComma names ++ ",Duplicate").data
        = pyJoinChars ',' (names.map String.data) ++ ',' :: "Duplicate".data := by
      have happ : (pyJoinComma names ++ ",Duplicate").data
          = (pyJoinComma names).data ++ (",Duplicate").data := rfl
      rw [happ]
      have : (",Duplicate").data = ',' :: "Duplicate".data := by decide
      rw [this]
      rfl
    have hws : ∀ w ∈ names.map String.data, ',' ∉ w := by
      intro w hw
      rcases List.mem_map.mp hw with ⟨x, hx, rfl⟩
      exact hcomma x hx
    have hmapne : names.map String.data ≠ [] := by rw [hn]; simp
    have hdup : ',' ∉ "Duplicate".data := by decide
    have hsplit := @pySplitChars_join ',' (names.map String.data) ("Duplicate".data) hws hmapne hdup
    show (pySplitChars ',' (pyJoinComma names ++ ",Duplicate").data).map (fun l => ⟨l⟩)
        = names ++ ["Duplicate"]
    rw [hdata, hsplit]
    rw [List.map_append, List.map_map]
    have hid : ∀ l : List String, l.map ((fun d => (⟨d⟩ : String)) ∘ String.data) = l := by
      intro l
      induction l with
      | nil => rfl
      | cons a t ih =>
        simp only [List.map_cons, ih]
        rfl
    rw [hid]
    rfl

/-- An update never adds or removes store records, nor changes any id. -/
theorem update_preserves_store_ids (store : List StoreTransaction) (i : Int)
    (u : UpdateObj) :
    (lunchmoney_update_transaction store i u).map (fun t => t.id)
      = store.map (fun t => t.id) := by
  induction store with
  | nil => rfl
  | cons a t ih =>
    simp only [lunchmoney_update_transaction, List.map_cons] at ih ⊢
    rw [ih]
    by_cases h : (a.id == i) = true <;> simp [h]

/-- Tag-based deletion never adds or removes store records either. -/
theorem delete_preserves_store_ids (store : List StoreTransaction) (i : Int)
    (s : String) :
    (lunchmoney_delete_transaction store i s).map (fun t => t.id)
      = store.map (fun t => t.id) := by
  unfold lunchmoney_delete_transaction
  exact update_preserves_store_ids store i _

/-- One member step of `interactive_tag_non_dup` preserves the store ids. -/
theorem tagNonDupStep_preserves_store_ids (m : LMRow) (inputs : List String)
    (store : List StoreTransaction) :
    ((tagNonDupStep m inputs store).2).map (fun t => t.id)
      = store.map (fun t => t.id) := by
  unfold tagNonDupStep
  cases inputs with
  | nil => rfl
  | cons resp rest =>
    have key : ∀ (c : Prop) (inst : Decidable c) (u : UpdateObj),
        ((if c then lunchmoney_update_transaction store m.id u else store).map
          (fun t => t.id)) = store.map (fun t => t.id) := by
      intro c inst u
      split
      · exact update_preserves_store_ids store m.id u
      · rfl
    exact key _ _ _

/-- `interactive_tag_non_dup` preserves the store ids. -/
theorem tagNonDup_preserves_store_ids : ∀ (frame : List LMRow) (inputs : List String)
    (d1 d2 : List LMRow) (store : List StoreTransaction),
    ((tagNonDup frame inputs d1 d2 store).2.2.2).map (fun t => t.id)
      = store.map (fun t => t.id)
  | [], _, _, _, _ => rfl
  | m :: ms, inputs, d1, d2, store => by
    unfold tagNonDup
    rw [tagNonDup_preserves_store_ids ms _ _ _ _]
    exact tagNonDupStep_preserves_store_ids m inputs store

/-- Reduction: a frame of at most one row exits the outer loop untouched. -/
theorem interactLoop_exit {row : LMRow} {disp : Bool} {inputs : List String}
    {frame : List LMRow} {st : AccState} (h : frame.length ≤ 1) :
    interactLoop row disp inputs frame st = (st, inputs) := by
  rw [interactLoop.eq_def]
  simp [h]

/-- Reduction: with no pending inputs the model stops after displaying. -/
theorem interactLoop_nil {row : LMRow} {disp : Bool} {frame : List LMRow}
    {st : AccState} (h : ¬ frame.length ≤ 1) :
    interactLoop row disp [] frame st = (displaySt row disp frame st, []) := by
  rw [interactLoop.eq_def]
  simp [h]

/-- Reduction: an unparsable input runs `interactive_tag_non_dup` and stops. -/
theorem interactLoop_valueError {row : LMRow} {disp : Bool} {u : String}
    {rest : List String} {frame : List LMRow} {st : AccState}
    (h : ¬ frame.length ≤ 1) (hp : parsePyInt u = none) :
    interactLoop row disp (u :: rest) frame st =
      (let st2 := displaySt row disp frame st
       let r := tagNonDup frame rest st2.dfLive st2.df_copy st2.store
       ({ st2 with dfLive := r.2.1, df_copy := r.2.2.1, store := r.2.2.2 }, r.1)) := by
  rw [interactLoop.eq_def]
  simp [h, hp]

/-- Reduction: an out-of-frame integer re-prompts on the same frame without
redisplaying. -/
theorem interactLoop_invalid {row : LMRow} {disp : Bool} {u : String}
    {rest : List String} {frame : List LMRow} {st : AccState} {n : Int}
    (h : ¬ frame.length ≤ 1) (hp : parsePyInt u = some n)
    (hinv : n ≠ row.idx ∧ ¬ frame.any (fun t => t.idx == n)) :
    interactLoop row disp (u :: rest) frame st =
      interactLoop row false rest frame (displaySt row disp frame st) := by
  rw [interactLoop.eq_def]
  simp only [h, if_false, hp]
  rw [if_pos hinv]

/-- Reduction: a valid integer deletes the chosen record and continues on the
shrunken frame. -/
theorem interactLoop_delete {row : LMRow} {disp : Bool} {u : String}
    {rest : List String} {frame : List LMRow} {st : AccState} {n : Int}
    {chosen : LMRow}
    (h : ¬ frame.length ≤ 1) (hp : parsePyInt u = some n)
    (hval : ¬ (n ≠ row.idx ∧ ¬ frame.any (fun t => t.idx == n)))
    (hfind : frame.find? (fun t => t.idx == n) = some chosen) :
    interactLoop row disp (u :: rest) frame st =
      (let st2 := displaySt row disp frame st
       let st3 := { st2 with
         ids_to_delete := st2.ids_to_delete ++ [chosen.id],
         store := lunchmoney_delete_transaction st2.store chosen.id (pyJoinComma chosen.tags) }
       let st4 := if n ≠ row.idx then
           { st3 with deleted := st3.deleted ++ [n],
                      df_copy := st3.df_copy.filter (fun t => t.idx ≠ n) }
         else st3
       interactLoop row true rest (frame.filter (fun t => t.idx ≠ n)) st4) := by
  rw [interactLoop.eq_def]
  simp only [h, if_false, hp]
  rw [if_neg hval, hfind]

/-- The fields of a row that no interaction ever mutates (tag lists are the
only mutable column): index label, date, amount, account. -/
def coreOf (r : LMRow) : Int × Int × Int × String :=
  (r.idx, r.date, r.amount, r.account_display_name)

/-- Appending the skip tag changes no core field. -/
theorem appendSkip_cores (l : List LMRow) (i : Int) :
    (appendSkip l i).map coreOf = l.map coreOf := by
  induction l with
  | nil => rfl
  | cons a t ih =>
    simp only [appendSkip, List.map_cons] at ih ⊢
    rw [ih]
    by_cases h : (a.idx == i) = true <;> simp [h, coreOf]

/-- `interactive_tag_non_dup` changes no core field of either dataframe. -/
theorem tagNonDup_cores : ∀ (frame : List LMRow) (inputs : List String)
    (d1 d2 : List LMRow) (store : List StoreTransaction),
    ((tagNonDup frame inputs d1 d2 store).2.1).map coreOf = d1.map coreOf
    ∧ ((tagNonDup frame inputs d1 d2 store).2.2.1).map coreOf = d2.map coreOf
  | [], _, _, _, _ => ⟨rfl, rfl⟩
  | m :: ms, inputs, d1, d2, store => by
    unfold tagNonDup
    constructor
    · rw [(tagNonDup_cores ms _ _ _ _).1, appendSkip_cores]
    · rw [(tagNonDup_cores ms _ _ _ _).2, appendSkip_cores]

/-- Core-membership survives a list whose cores agree. -/
theorem core_mem_of_map_eq {l1 l2 : List LMRow}
    (h : l1.map coreOf = l2.map coreOf) {t : LMRow} (ht : t ∈ l1) :
    coreOf t ∈ l2.map coreOf := by
  rw [← h]
  exact List.mem_map_of_mem coreOf ht

/-- Master specification of the interactive block: the store keeps its record
ids, the deletion list only grows, neither dataframe changes a core field, the
working copy only shrinks (up to cores), and every newly displayed group is
the source row with candidates drawn from the incoming frame. -/
theorem interactLoop_spec (row : LMRow) (P : LMRow → Prop) :
    ∀ (inputs : List String) (disp : Bool) (frame : List LMRow) (st : AccState),
    (∀ t ∈ frame, t.idx = row.idx ∨ P t) →
    ((interactLoop row disp inputs frame st).1.store.map (fun t => t.id)
        = st.store.map (fun t => t.id))
    ∧ (∃ l, (interactLoop row disp inputs frame st).1.ids_to_delete
        = st.ids_to_delete ++ l)
    ∧ ((interactLoop row disp inputs frame st).1.dfLive.map coreOf
        = st.dfLive.map coreOf)
    ∧ (∀ t ∈ (interactLoop row disp inputs frame st).1.df_copy,
        coreOf t ∈ st.df_copy.map coreOf)
    ∧ (∀ g ∈ (interactLoop row disp inputs frame st).1.offered,
        g ∈ st.offered ∨ (g.1 = row ∧ ∀ t ∈ g.2, P t)) := by
  intro inputs
  induction inputs with
  | nil =>
    intro disp frame st hframe
    by_cases h : frame.length ≤ 1
    · rw [interactLoop_exit h]
      exact ⟨rfl, ⟨[], by simp⟩, rfl, fun t ht => List.mem_map_of_mem coreOf ht,
        fun g hg => Or.inl hg⟩
    · rw [interactLoop_nil h]
      unfold displaySt
      cases disp with
      | false =>
        exact ⟨rfl, ⟨[], by simp⟩, rfl, fun t ht => List.mem_map_of_mem coreOf ht,
          fun g hg => Or.inl hg⟩
      | true =>
        refine ⟨rfl, ⟨[], by simp⟩, rfl, fun t ht => List.mem_map_of_mem coreOf ht, ?_⟩
        intro g hg
        simp only [if_pos, List.mem_append, List.mem_singleton] at hg
        rcases hg with hg | hg
        · exact Or.inl hg
        · refine Or.inr ⟨by rw [hg], ?_⟩
          intro t ht
          rw [hg] at ht
          simp only [List.mem_filter] at ht
          rcases hframe t ht.1 with h1 | h1
          · exact absurd h1 (by simpa using ht.2)
          · exact h1
  | cons u rest ih =>
    intro disp frame st hframe
    by_cases h : frame.length ≤ 1
    · rw [interactLoop_exit h]
      exact ⟨rfl, ⟨[], by simp⟩, rfl, fun t ht => List.mem_map_of_mem coreOf ht,
        fun g hg => Or.inl hg⟩
    · have hdisp : ((displaySt row disp frame st).store = st.store)
          ∧ ((displaySt row disp frame st).ids_to_delete = st.ids_to_delete)
          ∧ ((displaySt row disp frame st).dfLive = st.dfLive)
          ∧ ((displaySt row disp frame st).df_copy = st.df_copy)
          ∧ (∀ g ∈ (displaySt row disp frame st).offered,
              g ∈ st.offered ∨ (g.1 = row ∧ ∀ t ∈ g.2, P t)) := by
        unfold displaySt
        cases disp with
        | false => exact ⟨rfl, rfl, rfl, rfl, fun g hg => Or.inl hg⟩
        | true =>
          refine ⟨rfl, rfl, rfl, rfl, ?_⟩
          intro g hg
          simp only [if_pos, List.mem_append, List.mem_singleton] at hg
          rcases hg with hg | hg
          · exact Or.inl hg
          · refine Or.inr ⟨by rw [hg], ?_⟩
            intro t ht
            rw [hg] at ht
            simp only [List.mem_filter] at ht
            rcases hframe t ht.1 with h1 | h1
            · exact absurd h1 (by simpa using ht.2)
            · exact h1
      cases hp : parsePyInt u with
      | none =>
        rw [interactLoop_valueError h hp]
        dsimp only
        refine ⟨?_, ⟨[], by simp [hdisp.2.1]⟩, ?_, ?_, ?_⟩
        · rw [tagNonDup_preserves_store_ids, hdisp.1]
        · rw [(tagNonDup_cores _ _ _ _ _).1, hdisp.2.2.1]
        · intro t ht
          have := core_mem_of_map_eq (tagNonDup_cores frame rest
            (displaySt row disp frame st).dfLive (displaySt row disp frame st).df_copy
            (displaySt row disp frame st).store).2 ht
          rw [hdisp.2.2.2.1] at this
          exact this
        · exact hdisp.2.2.2.2
      | some n =>
        by_cases hval : n ≠ row.idx ∧ ¬ frame.any (fun t => t.idx == n)
        · rw [interactLoop_invalid h hp hval]
          have spec := ih false frame (displaySt row disp frame st) hframe
          refine ⟨?_, ?_, ?_, ?_, ?_⟩
          · rw [spec.1, hdisp.1]
          · obtain ⟨l, hl⟩ := spec.2.1
            exact ⟨l, by rw [hl, hdisp.2.1]⟩
          · rw [spec.2.2.1, hdisp.2.2.1]
          · intro t ht
            have := spec.2.2.2.1 t ht
            rw [hdisp.2.2.2.1] at this
            exact this
          · intro g hg
            rcases spec.2.2.2.2 g hg with h1 | h1
            · exact hdisp.2.2.2.2 g h1
            · exact Or.inr h1
        · cases hfind : frame.find? (fun t => t.idx == n) with
          | none =>
            rw [interactLoop.eq_def]
            simp only [h, if_false, hp]
            rw [if_neg hval, hfind]
            refine ⟨hdisp.1 ▸ rfl, ⟨[], by simp [hdisp.2.1]⟩, hdisp.2.2.1 ▸ rfl, ?_, ?_⟩
            · intro t ht
              rw [hdisp.2.2.2.1] at ht
              exact List.mem_map_of_mem coreOf ht
            · exact hdisp.2.2.2.2
          | some chosen =>
            rw [interactLoop_delete h hp hval hfind]
            dsimp only
            have hframe2 : ∀ t ∈ frame.filter (fun t => t.idx ≠ n), t.idx = row.idx ∨ P t :=
              fun t ht => hframe t (List.mem_filter.mp ht).1
            set st3 : AccState := { displaySt row disp frame st with
              ids_to_delete := (displaySt row disp frame st).ids_to_delete ++ [chosen.id],
              store := lunchmoney_delete_transaction (displaySt row disp frame st).store
                chosen.id (pyJoinComma chosen.tags) } with hst3
            set st4 : AccState := if n ≠ row.idx then
                { st3 with deleted := st3.deleted ++ [n],
                           df_copy := st3.df_copy.filter (fun t => t.idx ≠ n) }
              else st3 with hst4
            have spec := ih true (frame.filter (fun t => t.idx ≠ n)) st4 hframe2
            have hst4s : st4.store = st3.store := by
              rw [hst4]; split <;> rfl
            have hst4i : st4.ids_to_delete = st3.ids_to_delete := by
              rw [hst4]; split <;> rfl
            have hst4l : st4.dfLive = st3.dfLive := by
              rw [hst4]; split <;> rfl
            have hst4o : st4.offered = st3.offered := by
              rw [hst4]; split <;> rfl
            have hst4c : ∀ t ∈ st4.df_copy, t ∈ st3.df_copy := by
              rw [hst4]; split
              · intro t ht; exact (List.mem_filter.mp ht).1
              · intro t ht; exact ht
            refine ⟨?_, ?_, ?_, ?_, ?_⟩
            · rw [spec.1, hst4s, hst3]
              dsimp only
              rw [delete_preserves_store_ids, hdisp.1]
            · obtain ⟨l, hl⟩ := spec.2.1
              refine ⟨chosen.id :: l, ?_⟩
              rw [hl, hst4i, hst3]
              dsimp only
              rw [hdisp.2.1]
              simp
            · rw [spec.2.2.1, hst4l, hst3]
              dsimp only
              rw [hdisp.2.2.1]
            · intro t ht
              have h1 := spec.2.2.2.1 t ht
              rcases List.mem_map.mp h1 with ⟨x, hx, hxe⟩
              have hx3 : x ∈ st3.df_copy := hst4c x hx
              have : st3.df_copy = (displaySt row disp frame st).df_copy := rfl
              rw [this, hdisp.2.2.2.1] at hx3
              rw [← hxe]
              exact List.mem_map_of_mem coreOf hx3
            · intro g hg
              rcases spec.2.2.2.2 g hg with h1 | h1
              · rw [hst4o] at h1
                have : st3.offered = (displaySt row disp frame st).offered := rfl
                rw [this] at h1
                exact hdisp.2.2.2.2 g h1
              · exact Or.inr h1

/-- Displaying a frame changes only the trace. -/
theorem displaySt_fields (row : LMRow) (disp : Bool) (frame : List LMRow)
    (st : AccState) :
    (displaySt row disp frame st).store = st.store
    ∧ (displaySt row disp frame st).ids_to_delete = st.ids_to_delete
    ∧ (displaySt row disp frame st).dfLive = st.dfLive
    ∧ (displaySt row disp frame st).df_copy = st.df_copy
    ∧ (displaySt row disp frame st).deleted = st.deleted := by
  unfold displaySt
  split <;> exact ⟨rfl, rfl, rfl, rfl, rfl⟩

/-- The concrete store of the comma-corruption scenario: one record carrying a
single free-text tag whose name contains a comma. -/
def cexStore : List StoreTransaction :=
  [{ id := 1001, date := 19, amount := -500, payee := "Gym", notes := "",
     tags := ["a,b"] }]

/-- C9 counterexample.  The delete operation does not preserve every existing
tag: the caller hands `lunchmoney_delete_transaction` the comma-joined tag
names, and the function re-splits on commas after appending `",Duplicate"`
(transactions.py lines 304–317), so the single tag named `"a,b"` comes back as
the two tags `"a"` and `"b"` — the existing tag is gone from the record's tag
set.  The claim's unconditional "preserving all existing tags" is false at
this input. -/
theorem comma_tag_not_preserved_cex :
    lunchmoney_delete_transaction cexStore 1001 (pyJoinComma ["a,b"])
      = [{ id := 1001, date := 19, amount := -500, payee := "Gym", notes := "",
           tags := ["a", "b", "Duplicate"] }]
    ∧ "a,b" ∉ ["a", "b", "Duplicate"] := by
  refine ⟨by decide, by decide⟩

/-- C9 amended.  Confirming a duplicate never removes the record from the
external store: `lunchmoney_delete_transaction` rewrites only the record's tag
field, leaving every other field and every other record unchanged, and for tag
names free of commas (and not the lone empty name) the new tag list is exactly
the existing tags with a `"Duplicate"` marker appended — a comma-bearing tag
name is instead split apart by the join/split encoding, as the counterexample
shows.  A confirmed choice at the prompt appends exactly the chosen record's
id to the returned deletion list, and the interactive block as a whole never
adds or removes a store record. -/
theorem deletion_is_tag_marking (store : List StoreTransaction) (i : Int)
    (names : List String) (hcomma : ∀ n ∈ names, ',' ∉ n.data)
    (hne : names ≠ [""]) :
    lunchmoney_delete_transaction store i (pyJoinComma names)
      = store.map (fun t =>
          if t.id == i then { t with tags := names ++ ["Duplicate"] } else t)
    ∧ (∀ (row chosen : LMRow) (disp : Bool) (u : String) (rest : List String)
        (frame : List LMRow) (st : AccState) (n : Int),
        ¬ frame.length ≤ 1 → parsePyInt u = some n →
        ¬ (n ≠ row.idx ∧ ¬ frame.any (fun t => t.idx == n)) →
        frame.find? (fun t => t.idx == n) = some chosen →
        ∃ l, (interactLoop row disp (u :: rest) frame st).1.ids_to_delete
          = st.ids_to_delete ++ chosen.id :: l)
    ∧ (∀ (row : LMRow) (disp : Bool) (inputs : List String) (frame : List LMRow)
        (st : AccState),
        (interactLoop row disp inputs frame st).1.store.map (fun t => t.id)
          = st.store.map (fun t => t.id)) := by
  refine ⟨?_, ?_, ?_⟩
  · unfold lunchmoney_delete_transaction
    rw [delete_tags_eq hcomma hne]
    unfold lunchmoney_update_transaction
    induction store with
    | nil => rfl
    | cons a t iht =>
      simp only [List.map_cons, List.cons.injEq]
      refine ⟨?_, iht⟩
      by_cases hida : (a.id == i) = true <;> simp [hida]
  · intro row chosen disp u rest frame st n hlen hp hval hfind
    rw [interactLoop_delete hlen hp hval hfind]
    dsimp only
    set stD := displaySt row disp frame st with hstD
    set st3 : AccState := { stD with
      ids_to_delete := stD.ids_to_delete ++ [chosen.id],
      store := lunchmoney_delete_transaction stD.store chosen.id
        (pyJoinComma chosen.tags) } with hst3
    set st4 : AccState := (if n ≠ row.idx then
        { st3 with deleted := st3.deleted ++ [n],
                   df_copy := st3.df_copy.filter (fun t => t.idx ≠ n) }
      else st3) with hst4
    obtain ⟨l, hl⟩ := (interactLoop_spec row (fun _ => True) rest true
      (frame.filter (fun t => t.idx ≠ n)) st4 (fun t _ => Or.inr trivial)).2.1
    refine ⟨l, ?_⟩
    rw [hl]
    have h4 : st4.ids_to_delete = st3.ids_to_delete := by
      rw [hst4]; split <;> rfl
    have h3 : st3.ids_to_delete = stD.ids_to_delete ++ [chosen.id] := rfl
    have hD : stD.ids_to_delete = st.ids_to_delete :=
      (displaySt_fields row disp frame st).2.1
    rw [h4, h3, hD]
    simp
  · intro row disp inputs frame st
    exact (interactLoop_spec row (fun _ => True) inputs disp frame st
      (fun t _ => Or.inr trivial)).1

/-- A concrete two-record store for the deletion witness. -/
def wStore : List StoreTransaction :=
  [{ id := 1000, date := 20, amount := -500, payee := "Gym", notes := "", tags := [] },
   { id := 1001, date := 19, amount := -500, payee := "Gym", notes := "", tags := ["a", "b"] }]

/-- Witness for `deletion_is_tag_marking` at a concrete store, id and tag
names. -/
theorem deletion_is_tag_marking_witness :
    lunchmoney_delete_transaction wStore 1001 (pyJoinComma ["a", "b"])
      = wStore.map (fun t =>
          if t.id == 1001 then { t with tags := ["a", "b"] ++ ["Duplicate"] } else t)
    ∧ (∀ (row chosen : LMRow) (disp : Bool) (u : String) (rest : List String)
        (frame : List LMRow) (st : AccState) (n : Int),
        ¬ frame.length ≤ 1 → parsePyInt u = some n →
        ¬ (n ≠ row.idx ∧ ¬ frame.any (fun t => t.idx == n)) →
        frame.find? (fun t => t.idx == n) = some chosen →
        ∃ l, (interactLoop row disp (u :: rest) frame st).1.ids_to_delete
          = st.ids_to_delete ++ chosen.id :: l)
    ∧ (∀ (row : LMRow) (disp : Bool) (inputs : List String) (frame : List LMRow)
        (st : AccState),
        (interactLoop row disp inputs frame st).1.store.map (fun t => t.id)
          = st.store.map (fun t => t.id)) :=
  deletion_is_tag_marking wStore 1001 ["a", "b"] (by decide) (by decide)

/-! ## Claim C8: idempotence of skip-marking -/

/-- Insertion keeps exactly the old rows plus the new one. -/
theorem insertDesc_perm (r : LMRow) (l : List LMRow) :
    (insertDesc r l).Perm (r :: l) := by
  induction l with
  | nil => exact List.Perm.refl _
  | cons a t ih =>
    unfold insertDesc
    split
    · exact (List.Perm.cons a ih).trans (List.Perm.swap r a t)
    · exact List.Perm.refl _

/-- Sorting by descending date permutes the rows. -/
theorem sortByDateDesc_perm (l : List LMRow) : (sortByDateDesc l).Perm l := by
  induction l with
  | nil => exact List.Perm.refl _
  | cons a t ih =>
    exact (insertDesc_perm a (sortByDateDesc t)).trans (List.Perm.cons a ih)

/-- The live row read back for `r` is a dataframe row or `r` itself. -/
theorem liveRow_tagged {st : AccState} {r : LMRow}
    (hlive : ∀ t ∈ st.dfLive, hasNotDupTag t.tags = true)
    (hr : hasNotDupTag r.tags = true) :
    hasNotDupTag ((st.dfLive.find? (fun x => x.idx == r.idx)).getD r).tags = true := by
  cases hf : st.dfLive.find? (fun x => x.idx == r.idx) with
  | none => simpa using hr
  | some x => simpa using hlive x (List.mem_of_find?_eq_some hf)

/-- A row step on a fully skip-tagged state only shrinks the working copy:
every candidate of a tagged source row is tagged, so the group empties and the
loop continues without prompting. -/
theorem stepRow_all_tagged (lb : Int) (st : AccState) (r : LMRow)
    (inputs : List String)
    (hlive : ∀ t ∈ st.dfLive, hasNotDupTag t.tags = true)
    (hcopy : ∀ t ∈ st.df_copy, hasNotDupTag t.tags = true)
    (hr : hasNotDupTag r.tags = true) :
    (stepRow lb st r inputs).1.dfLive = st.dfLive
    ∧ (stepRow lb st r inputs).1.ids_to_delete = st.ids_to_delete
    ∧ (stepRow lb st r inputs).1.store = st.store
    ∧ (stepRow lb st r inputs).1.offered = st.offered
    ∧ (stepRow lb st r inputs).1.deleted = st.deleted
    ∧ (∀ t ∈ (stepRow lb st r inputs).1.df_copy, t ∈ st.df_copy)
    ∧ (stepRow lb st r inputs).2 = inputs := by
  have hrow := liveRow_tagged hlive hr
  have hm1 : ((st.df_copy.filter (fun t =>
      t.idx ≠ ((st.dfLive.find? (fun x => x.idx == r.idx)).getD r).idx)).filter
        (fun t => t.amount == ((st.dfLive.find? (fun x => x.idx == r.idx)).getD r).amount
          && t.date ≥ ((st.dfLive.find? (fun x => x.idx == r.idx)).getD r).date - lb)).filter
        (fun t => ¬ hasNotDupTag t.tags) = [] := by
    rw [List.filter_eq_nil_iff]
    intro t ht
    have h1 : t ∈ st.df_copy := (List.mem_filter.mp (List.mem_filter.mp ht).1).1
    simp [hcopy t h1]
  have hres : stepRow lb st r inputs
      = if st.deleted.contains ((st.dfLive.find? (fun x => x.idx == r.idx)).getD r).idx
        then (st, inputs)
        else ({ st with df_copy := st.df_copy.filter (fun t =>
          t.idx ≠ ((st.dfLive.find? (fun x => x.idx == r.idx)).getD r).idx) }, inputs) := by
    unfold stepRow
    dsimp only
    rw [if_pos hrow, hm1]
    rw [if_pos (by simp : (([] : List LMRow)).length ≤ 0), ite_self]
  rw [hres]
  split
  · exact ⟨rfl, rfl, rfl, rfl, rfl, fun t ht => ht, rfl⟩
  · exact ⟨rfl, rfl, rfl, rfl, rfl, fun t ht => (List.mem_filter.mp ht).1, rfl⟩

/-- The row loop on a fully skip-tagged state never prompts, never deletes and
never touches the store or the trace. -/
theorem runAccount_all_tagged (lb : Int) : ∀ (rows : List LMRow) (st : AccState)
    (inputs : List String),
    (∀ t ∈ st.dfLive, hasNotDupTag t.tags = true) →
    (∀ t ∈ st.df_copy, hasNotDupTag t.tags = true) →
    (∀ rr ∈ rows, hasNotDupTag rr.tags = true) →
    (runAccount lb st inputs rows).1.dfLive = st.dfLive
    ∧ (runAccount lb st inputs rows).1.ids_to_delete = st.ids_to_delete
    ∧ (runAccount lb st inputs rows).1.store = st.store
    ∧ (runAccount lb st inputs rows).1.offered = st.offered
    ∧ (runAccount lb st inputs rows).2 = inputs
  | [], st, inputs, _, _, _ => ⟨rfl, rfl, rfl, rfl, rfl⟩
  | r :: rest, st, inputs, hlive, hcopy, hrows => by
    have hstep := stepRow_all_tagged lb st r inputs hlive hcopy
      (hrows r (List.mem_cons_self _ _))
    have hlive2 : ∀ t ∈ (stepRow lb st r inputs).1.dfLive, hasNotDupTag t.tags = true := by
      rw [hstep.1]; exact hlive
    have hcopy2 : ∀ t ∈ (stepRow lb st r inputs).1.df_copy, hasNotDupTag t.tags = true :=
      fun t ht => hcopy t (hstep.2.2.2.2.2.1 t ht)
    have hrest : ∀ rr ∈ rest, hasNotDupTag rr.tags = true :=
      fun rr hrr => hrows rr (List.mem_cons_of_mem _ hrr)
    have ih := runAccount_all_tagged lb rest (stepRow lb st r inputs).1
      (stepRow lb st r inputs).2 hlive2 hcopy2 hrest
    unfold runAccount
    refine ⟨?_, ?_, ?_, ?_, ?_⟩
    · rw [ih.1, hstep.1]
    · rw [ih.2.1, hstep.2.1]
    · rw [ih.2.2.1, hstep.2.2.1]
    · rw [ih.2.2.2.1, hstep.2.2.2.1]
    · rw [ih.2.2.2.2, hstep.2.2.2.2.2.2]

/-- C8.  On input where every record already carries a skip-marker tag — as
after a first run answered "none" for the group, which pushed `Not-Duplicate`
onto every displayed record — a further run of the self-set detector asks
nothing and deletes nothing: the deletion list comes back empty, no candidate
group is displayed, no input is consumed and the store is untouched. -/
theorem skip_marker_idempotent (df : List LMRow) (lookback_days : Int)
    (store : List StoreTransaction) (inputs : List String)
    (h : ∀ r ∈ df, hasNotDupTag r.tags = true) :
    find_duplicate_transactions df lookback_days store inputs
      = { ids_to_delete := [], offered := [], store := store, inputs := inputs } := by
  unfold find_duplicate_transactions
  have key : ∀ (accts : List String) (acc : RunResult),
      (accts.foldl (fun acc a =>
        let dfa := sortByDateDesc (df.filter (fun r => r.account_display_name == a))
        let s := find_duplicates_for_one_account dfa lookback_days acc.ids_to_delete
          acc.store acc.inputs
        { ids_to_delete := s.1.ids_to_delete, offered := acc.offered ++ s.1.offered,
          store := s.1.store, inputs := s.2 }) acc) = acc := by
    intro accts
    induction accts with
    | nil => intro acc; rfl
    | cons a rest ih =>
      intro acc
      have hdfa : ∀ t ∈ sortByDateDesc (df.filter (fun r => r.account_display_name == a)),
          hasNotDupTag t.tags = true := by
        intro t ht
        have h1 : t ∈ df.filter (fun r => r.account_display_name == a) :=
          (sortByDateDesc_perm _).mem_iff.mp ht
        exact h t (List.mem_filter.mp h1).1
      have hrun := runAccount_all_tagged lookback_days
        (sortByDateDesc (df.filter (fun r => r.account_display_name == a)))
        { dfLive := sortByDateDesc (df.filter (fun r => r.account_display_name == a)),
          df_copy := sortByDateDesc (df.filter (fun r => r.account_display_name == a)),
          deleted := [], ids_to_delete := acc.ids_to_delete, store := acc.store,
          offered := [] } acc.inputs hdfa hdfa hdfa
      rw [List.foldl_cons]
      have hacc : (let dfa := sortByDateDesc (df.filter (fun r => r.account_display_name == a))
          let s := find_duplicates_for_one_account dfa lookback_days acc.ids_to_delete
            acc.store acc.inputs
          { ids_to_delete := s.1.ids_to_delete, offered := acc.offered ++ s.1.offered,
            store := s.1.store, inputs := s.2 } : RunResult) = acc := by
        dsimp only
        unfold find_duplicates_for_one_account
        cases acc with
        | mk i o sto inp =>
          simp only [RunResult.mk.injEq]
          exact ⟨hrun.2.1, by rw [hrun.2.2.2.1]; simp, hrun.2.2.1, hrun.2.2.2.2⟩
      rw [hacc, ih]
  rw [key]

/-- A two-row group previously confirmed non-duplicate: equal amounts, one day
apart, both carrying the `Not-Duplicate` tag the first run pushed. -/
def taggedRow1 : LMRow :=
  { idx := 0, id := 1000, date := 20, amount := -500, payee := "Gym",
    category_name := "Fit", account_display_name := "Chk", notes := "",
    tags := ["Not-Duplicate"] }

/-- Second member of the previously confirmed group. -/
def taggedRow2 : LMRow := { taggedRow1 with idx := 1, id := 1001, date := 19 }

/-- Witness for `skip_marker_idempotent`: the pre-tagged group produces no
prompt, no deletion and an untouched store even with inputs pending. -/
theorem skip_marker_idempotent_witness :
    find_duplicate_transactions [taggedRow1, taggedRow2] 7 wStore ["0"]
      = { ids_to_delete := [], offered := [], store := wStore, inputs := ["0"] } :=
  skip_marker_idempotent [taggedRow1, taggedRow2] 7 wStore ["0"] (by decide)

/-! ## Claim C7: self-set candidates stay in the account and the window -/

/-- Inserting into a date-descending list keeps it date-descending. -/
theorem insertDesc_pairwise {r : LMRow} {l : List LMRow}
    (h : List.Pairwise (fun a b => b.date ≤ a.date) l) :
    List.Pairwise (fun a b => b.date ≤ a.date) (insertDesc r l) := by
  induction l with
  | nil => simp [insertDesc]
  | cons a t ih =>
    rw [List.pairwise_cons] at h
    unfold insertDesc
    split
    · refine List.pairwise_cons.mpr ⟨?_, ih h.2⟩
      intro b hb
      rcases List.mem_cons.mp ((insertDesc_perm r t).mem_iff.mp hb) with hb1 | hb1
      · rw [hb1]
        omega
      · exact h.1 b hb1
    · refine List.pairwise_cons.mpr ⟨?_, List.pairwise_cons.mpr h⟩
      intro b hb
      rcases List.mem_cons.mp hb with hb1 | hb1
      · rw [hb1]
        omega
      · have := h.1 b hb1
        omega

/-- The sort is date-descending. -/
theorem sortByDateDesc_pairwise (l : List LMRow) :
    List.Pairwise (fun a b => b.date ≤ a.date) (sortByDateDesc l) := by
  induction l with
  | nil => exact List.Pairwise.nil
  | cons a t ih => exact insertDesc_pairwise ih

/-- Reading a row back by index from a list with the same cores and unique
indices gives the same core. -/
theorem findLive_core : ∀ {l1 l2 : List LMRow},
    l1.map coreOf = l2.map coreOf →
    (l2.map (fun x => x.idx)).Nodup →
    ∀ {r : LMRow}, r ∈ l2 →
    coreOf ((l1.find? (fun x => x.idx == r.idx)).getD r) = coreOf r := by
  intro l1 l2
  induction l2 generalizing l1 with
  | nil =>
    intro _ _ r hr
    exact absurd hr (List.not_mem_nil r)
  | cons y t2 ih =>
    intro hmap hnodup r hr
    cases l1 with
    | nil => exact absurd hmap (by simp)
    | cons z t1 =>
      simp only [List.map_cons, List.cons.injEq] at hmap
      have hxy : coreOf z = coreOf y := hmap.1
      have hidxy : z.idx = y.idx := congrArg Prod.fst hxy
      rw [List.map_cons, List.nodup_cons] at hnodup
      by_cases hx : (z.idx == r.idx) = true
      · rw [@List.find?_cons_of_pos _ (fun x => x.idx == r.idx) z t1 hx]
        have hxr : z.idx = r.idx := by simpa using hx
        rcases List.mem_cons.mp hr with hry | hrt
        · rw [hry] at hxr ⊢
          exact hxy
        · exfalso
          apply hnodup.1
          rw [← hidxy, hxr]
          exact List.mem_map_of_mem (fun x => x.idx) hrt
      · rw [@List.find?_cons_of_neg _ (fun x => x.idx == r.idx) z t1 hx]
        rcases List.mem_cons.mp hr with hry | hrt
        · exfalso
          apply hx
          rw [hidxy, hry]
          simp
        · exact ih hmap.2 hnodup.2 hrt

/-- Equal cores give equal index sequences. -/
theorem map_idx_of_cores {l1 l2 : List LMRow}
    (h : l1.map coreOf = l2.map coreOf) :
    l1.map (fun x => x.idx) = l2.map (fun x => x.idx) := by
  have h1 := congrArg (List.map Prod.fst) h
  simpa [List.map_map, Function.comp] using h1

/-- An index present in a list with the cores of another is present there. -/
theorem idx_mem_of_cores {l1 l2 : List LMRow}
    (h : l1.map coreOf = l2.map coreOf) {t : LMRow} (ht : t ∈ l1) :
    ∃ u ∈ l2, u.idx = t.idx := by
  have h1 : t.idx ∈ l2.map (fun x => x.idx) := by
    rw [← map_idx_of_cores h]
    exact List.mem_map_of_mem _ ht
  rcases List.mem_map.mp h1 with ⟨u, hu, hue⟩
  exact ⟨u, hu, hue⟩

/-- Through the interactive block, rows remaining in the working copy are
never among the deleted indices. -/
theorem interactLoop_deleted_coupling (row : LMRow) :
    ∀ (inputs : List String) (disp : Bool) (frame : List LMRow) (st : AccState),
    (∀ t ∈ st.df_copy, t.idx ∉ st.deleted) →
    ∀ t ∈ (interactLoop row disp inputs frame st).1.df_copy,
      t.idx ∉ (interactLoop row disp inputs frame st).1.deleted := by
  intro inputs
  induction inputs with
  | nil =>
    intro disp frame st hI t ht
    by_cases h : frame.length ≤ 1
    · rw [interactLoop_exit h] at ht ⊢
      exact hI t ht
    · rw [interactLoop_nil h] at ht ⊢
      rw [(displaySt_fields row disp frame st).2.2.2.2]
      rw [(displaySt_fields row disp frame st).2.2.2.1] at ht
      exact hI t ht
  | cons u rest ih =>
    intro disp frame st hI
    by_cases h : frame.length ≤ 1
    · rw [interactLoop_exit h]
      exact hI
    · have hdc := (displaySt_fields row disp frame st).2.2.2.1
      have hdd := (displaySt_fields row disp frame st).2.2.2.2
      cases hp : parsePyInt u with
      | none =>
        intro t ht
        rw [interactLoop_valueError h hp] at ht ⊢
        dsimp only at ht ⊢
        rw [hdd]
        have hcores := (tagNonDup_cores frame rest (displaySt row disp frame st).dfLive
          (displaySt row disp frame st).df_copy (displaySt row disp frame st).store).2
        rcases idx_mem_of_cores hcores ht with ⟨u2, hu2, hue⟩
        rw [hdc] at hu2
        rw [← hue]
        exact hI u2 hu2
      | some n =>
        by_cases hval : n ≠ row.idx ∧ ¬ frame.any (fun t => t.idx == n)
        · rw [interactLoop_invalid h hp hval]
          apply ih
          intro t ht
          rw [hdc] at ht
          rw [hdd]
          exact hI t ht
        · cases hfind : frame.find? (fun t => t.idx == n) with
          | none =>
            rw [interactLoop.eq_def]
            simp only [h, if_false, hp]
            rw [if_neg hval, hfind]
            intro t ht
            dsimp only at ht ⊢
            rw [hdd]
            rw [hdc] at ht
            exact hI t ht
          | some chosen =>
            rw [interactLoop_delete h hp hval hfind]
            dsimp only
            apply ih
            intro t ht
            by_cases hn : n ≠ row.idx
            · rw [if_pos hn] at ht ⊢
              dsimp only at ht ⊢
              rw [hdc] at ht
              have h1 : t ∈ (displaySt row disp frame st).df_copy ∧ t.idx ≠ n := by
                constructor
                · rw [hdc]
                  exact (List.mem_filter.mp ht).1
                · simpa using (List.mem_filter.mp ht).2
              intro hmem
              rw [hdd] at hmem
              rcases List.mem_append.mp hmem with h2 | h2
              · exact hI t (List.mem_filter.mp ht).1 h2
              · exact h1.2 (by simpa using h2)
            · rw [if_neg hn] at ht ⊢
              dsimp only at ht ⊢
              rw [hdd]
              rw [hdc] at ht
              exact hI t ht

/-- Core projections. -/
theorem coreOf_parts {a b : LMRow} (h : coreOf a = coreOf b) :
    a.idx = b.idx ∧ a.date = b.date ∧ a.amount = b.amount
    ∧ a.account_display_name = b.account_display_name := by
  unfold coreOf at h
  exact ⟨congrArg (fun p => p.1) h, congrArg (fun p => p.2.1) h,
    congrArg (fun p => p.2.2.1) h, congrArg (fun p => p.2.2.2) h⟩

/-- One row step of the self-set detector: every group added to the display
trace pairs the live source row with candidates of the same account, equal
amount, and date inside `[source.date - lookback, source.date]`; the live
dataframe keeps its cores; and the working copy shrinks to rows of the
remaining tail, still disjoint from the deleted indices. -/
theorem stepRow_window (lb : Int) (dfa : List LMRow) (r : LMRow)
    (rest : List LMRow) (st : AccState) (inputs : List String)
    (hnodupdfa : (dfa.map (fun x => x.idx)).Nodup)
    (hrdfa : r ∈ dfa)
    (hrestdfa : ∀ p ∈ rest, p ∈ dfa)
    (hsorted : ∀ p ∈ rest, p.date ≤ r.date)
    (hacc : ∀ t1 ∈ dfa, ∀ t2 ∈ dfa, t1.account_display_name = t2.account_display_name)
    (hlive : st.dfLive.map coreOf = dfa.map coreOf)
    (hcopy : ∀ t ∈ st.df_copy, coreOf t ∈ (r :: rest).map coreOf ∧ t.idx ∉ st.deleted) :
    (∀ g ∈ (stepRow lb st r inputs).1.offered, g ∈ st.offered ∨
       ∀ t ∈ g.2, t.account_display_name = g.1.account_display_name
         ∧ t.amount = g.1.amount ∧ g.1.date - lb ≤ t.date ∧ t.date ≤ g.1.date
         ∧ t.idx ≠ g.1.idx)
    ∧ (stepRow lb st r inputs).1.dfLive.map coreOf = dfa.map coreOf
    ∧ (∀ t ∈ (stepRow lb st r inputs).1.df_copy,
        coreOf t ∈ rest.map coreOf ∧ t.idx ∉ (stepRow lb st r inputs).1.deleted) := by
  have hcore : coreOf ((st.dfLive.find? (fun x => x.idx == r.idx)).getD r) = coreOf r :=
    findLive_core hlive hnodupdfa hrdfa
  unfold stepRow
  dsimp only
  set row : LMRow := (st.dfLive.find? (fun x => x.idx == r.idx)).getD r with hrowdef
  obtain ⟨hidx, hdate, hamt, haccname⟩ := coreOf_parts hcore
  -- rows of the copy other than the source stay in the tail, up to cores
  have htail : ∀ t ∈ st.df_copy, t.idx ≠ row.idx → coreOf t ∈ rest.map coreOf := by
    intro t ht hne
    rcases List.mem_cons.mp (hcopy t ht).1 with h1 | h1
    · exfalso
      exact hne ((coreOf_parts h1).1.trans hidx.symm)
    · exact h1
  -- every candidate surviving the amount/date filter satisfies the window
  have hcand : ∀ t ∈ (st.df_copy.filter (fun t => t.idx ≠ row.idx)).filter
      (fun t => t.amount == row.amount && t.date ≥ row.date - lb),
      t.account_display_name = row.account_display_name ∧ t.amount = row.amount
      ∧ row.date - lb ≤ t.date ∧ t.date ≤ row.date ∧ t.idx ≠ row.idx := by
    intro t ht
    have h1 := List.mem_filter.mp ht
    have h2 := List.mem_filter.mp h1.1
    have hne : t.idx ≠ row.idx := by simpa using h2.2
    have hamtdate := h1.2
    simp only [Bool.and_eq_true, beq_iff_eq, decide_eq_true_eq, ge_iff_le] at hamtdate
    have hcoret := htail t h2.1 hne
    rcases List.mem_map.mp hcoret with ⟨p, hp, hpe⟩
    obtain ⟨hpidx, hpdate, hpamt, hpacc⟩ := coreOf_parts hpe
    refine ⟨?_, hamtdate.1, hamtdate.2, ?_, hne⟩
    · rw [← hpacc, haccname]
      exact hacc p (hrestdfa p hp) r hrdfa
    · rw [← hpdate, hdate]
      exact hsorted p hp
  by_cases c1 : st.deleted.contains row.idx = true
  · rw [if_pos c1]
    refine ⟨fun g hg => Or.inl hg, hlive, ?_⟩
    intro t ht
    refine ⟨?_, (hcopy t ht).2⟩
    apply htail t ht
    intro he
    apply (hcopy t ht).2
    have hmem : row.idx ∈ st.deleted := by simpa using c1
    rw [he]
    exact hmem
  · rw [if_neg c1]
    set copy1 : List LMRow := st.df_copy.filter (fun t => t.idx ≠ row.idx) with hc1def
    set stP : AccState := { st with df_copy := copy1 } with hstPdef
    set m0 : List LMRow := copy1.filter
      (fun t => t.amount == row.amount && t.date ≥ row.date - lb) with hm0def
    set m1 : List LMRow := m0.filter (fun t => ¬ hasNotDupTag t.tags) with hm1def
    have hcopy1 : ∀ t ∈ copy1, coreOf t ∈ rest.map coreOf ∧ t.idx ∉ st.deleted := by
      intro t ht
      have h1 := List.mem_filter.mp ht
      exact ⟨htail t h1.1 (by simpa using h1.2), (hcopy t h1.1).2⟩
    have hm0P : ∀ t ∈ m0, t.account_display_name = row.account_display_name
        ∧ t.amount = row.amount ∧ row.date - lb ≤ t.date ∧ t.date ≤ row.date
        ∧ t.idx ≠ row.idx := hcand
    have offerCase : ∀ (mts : List LMRow),
        (∀ t ∈ mts, t.account_display_name = row.account_display_name
          ∧ t.amount = row.amount ∧ row.date - lb ≤ t.date ∧ t.date ≤ row.date
          ∧ t.idx ≠ row.idx) →
        (∀ g ∈ (interactLoop row true inputs (row :: mts) stP).1.offered,
            g ∈ st.offered ∨
            ∀ t ∈ g.2, t.account_display_name = g.1.account_display_name
              ∧ t.amount = g.1.amount ∧ g.1.date - lb ≤ t.date ∧ t.date ≤ g.1.date
              ∧ t.idx ≠ g.1.idx)
        ∧ (interactLoop row true inputs (row :: mts) stP).1.dfLive.map coreOf
            = dfa.map coreOf
        ∧ (∀ t ∈ (interactLoop row true inputs (row :: mts) stP).1.df_copy,
            coreOf t ∈ rest.map coreOf
            ∧ t.idx ∉ (interactLoop row true inputs (row :: mts) stP).1.deleted) := by
      intro mts hmts
      have hframe : ∀ t ∈ row :: mts, t.idx = row.idx ∨
          (t.account_display_name = row.account_display_name
            ∧ t.amount = row.amount ∧ row.date - lb ≤ t.date ∧ t.date ≤ row.date
            ∧ t.idx ≠ row.idx) := by
        intro t ht
        rcases List.mem_cons.mp ht with h1 | h1
        · exact Or.inl (by rw [h1])
        · exact Or.inr (hmts t h1)
      have spec := interactLoop_spec row
        (fun t => t.account_display_name = row.account_display_name
          ∧ t.amount = row.amount ∧ row.date - lb ≤ t.date ∧ t.date ≤ row.date
          ∧ t.idx ≠ row.idx) inputs true (row :: mts) stP hframe
      have dc := interactLoop_deleted_coupling row inputs true (row :: mts) stP
        (fun t ht => (hcopy1 t ht).2)
      refine ⟨?_, ?_, ?_⟩
      · intro g hg
        rcases spec.2.2.2.2 g hg with h1 | h1
        · exact Or.inl h1
        · refine Or.inr ?_
          intro t ht
          have := h1.2 t ht
          rw [h1.1]
          exact this
      · rw [spec.2.2.1]
        exact hlive
      · intro t ht
        refine ⟨?_, dc t ht⟩
        have h1 := spec.2.2.2.1 t ht
        rcases List.mem_map.mp h1 with ⟨x, hx, hxe⟩
        rw [← hxe]
        exact (hcopy1 x hx).1
    by_cases c2 : m0.length > 0
    · rw [if_pos c2]
      by_cases c3 : hasNotDupTag row.tags = true
      · rw [if_pos c3]
        by_cases c4 : m1.length ≤ 0
        · rw [if_pos c4]
          exact ⟨fun g hg => Or.inl hg, hlive,
            fun t ht => ⟨(hcopy1 t ht).1, (hcopy1 t ht).2⟩⟩
        · rw [if_neg c4]
          exact offerCase m1 (fun t ht => hm0P t (List.mem_filter.mp ht).1)
      · rw [if_neg c3]
        exact offerCase m0 hm0P
    · rw [if_neg c2]
      exact ⟨fun g hg => Or.inl hg, hlive,
        fun t ht => ⟨(hcopy1 t ht).1, (hcopy1 t ht).2⟩⟩

/-- The whole row loop keeps every displayed group inside the account, the
amount and the date window. -/
theorem runAccount_window (lb : Int) (dfa : List LMRow)
    (hnodupdfa : (dfa.map (fun x => x.idx)).Nodup)
    (hacc : ∀ t1 ∈ dfa, ∀ t2 ∈ dfa,
      t1.account_display_name = t2.account_display_name) :
    ∀ (pending : List LMRow) (st : AccState) (inputs : List String),
    (∀ p ∈ pending, p ∈ dfa) →
    List.Pairwise (fun a b => b.date ≤ a.date) pending →
    st.dfLive.map coreOf = dfa.map coreOf →
    (∀ t ∈ st.df_copy, coreOf t ∈ pending.map coreOf ∧ t.idx ∉ st.deleted) →
    (∀ g ∈ st.offered,
      ∀ t ∈ g.2, t.account_display_name = g.1.account_display_name
        ∧ t.amount = g.1.amount ∧ g.1.date - lb ≤ t.date ∧ t.date ≤ g.1.date
        ∧ t.idx ≠ g.1.idx) →
    ∀ g ∈ (runAccount lb st inputs pending).1.offered,
      ∀ t ∈ g.2, t.account_display_name = g.1.account_display_name
        ∧ t.amount = g.1.amount ∧ g.1.date - lb ≤ t.date ∧ t.date ≤ g.1.date
        ∧ t.idx ≠ g.1.idx
  | [], st, inputs, _, _, _, _, hok => hok
  | r :: rest, st, inputs, hpend, hpair, hlive, hcopy, hok => by
    have hstep := stepRow_window lb dfa r rest st inputs hnodupdfa
      (hpend r (List.mem_cons_self _ _))
      (fun p hp => hpend p (List.mem_cons_of_mem _ hp))
      (fun p hp => (List.pairwise_cons.mp hpair).1 p hp)
      hacc hlive hcopy
    have hok2 : ∀ g ∈ (stepRow lb st r inputs).1.offered,
        ∀ t ∈ g.2, t.account_display_name = g.1.account_display_name
          ∧ t.amount = g.1.amount ∧ g.1.date - lb ≤ t.date ∧ t.date ≤ g.1.date
          ∧ t.idx ≠ g.1.idx := by
      intro g hg
      rcases hstep.1 g hg with h1 | h1
      · exact hok g h1
      · exact h1
    exact runAccount_window lb dfa hnodupdfa hacc rest (stepRow lb st r inputs).1
      (stepRow lb st r inputs).2
      (fun p hp => hpend p (List.mem_cons_of_mem _ hp))
      (List.pairwise_cons.mp hpair).2
      hstep.2.1 hstep.2.2 hok2

/-- C7.  In the self-set duplicate detector, every candidate ever displayed
beside a source record is another record (a different index label) of the same
account with equal amount and date inside the closed interval
`[source.date - lookback_days, source.date]`: no candidate is dated after its
source record, because each account partition is traversed in descending date
order with already-visited labels dropped from the working copy before the
lower-bound-only filter runs.  The dataframe indices are assumed unique, the
data-model invariant for a pandas index. -/
theorem self_set_candidates_same_account_window (df : List LMRow)
    (lookback_days : Int) (store : List StoreTransaction) (inputs : List String)
    (hids : (df.map (fun r => r.idx)).Nodup) :
    ∀ g ∈ (find_duplicate_transactions df lookback_days store inputs).offered,
      ∀ t ∈ g.2,
        t.account_display_name = g.1.account_display_name
        ∧ t.amount = g.1.amount
        ∧ g.1.date - lookback_days ≤ t.date
        ∧ t.date ≤ g.1.date
        ∧ t.idx ≠ g.1.idx := by
  unfold find_duplicate_transactions
  have key : ∀ (accts : List String) (acc : RunResult),
      (∀ g ∈ acc.offered,
        ∀ t ∈ g.2, t.account_display_name = g.1.account_display_name
          ∧ t.amount = g.1.amount ∧ g.1.date - lookback_days ≤ t.date
          ∧ t.date ≤ g.1.date ∧ t.idx ≠ g.1.idx) →
      ∀ g ∈ (accts.foldl (fun acc a =>
          let dfa := sortByDateDesc (df.filter (fun r => r.account_display_name == a))
          let s := find_duplicates_for_one_account dfa lookback_days acc.ids_to_delete
            acc.store acc.inputs
          { ids_to_delete := s.1.ids_to_delete, offered := acc.offered ++ s.1.offered,
            store := s.1.store, inputs := s.2 }) acc).offered,
        ∀ t ∈ g.2, t.account_display_name = g.1.account_display_name
          ∧ t.amount = g.1.amount ∧ g.1.date - lookback_days ≤ t.date
          ∧ t.date ≤ g.1.date ∧ t.idx ≠ g.1.idx := by
    intro accts
    induction accts with
    | nil => intro acc hok; exact hok
    | cons a rest ih =>
      intro acc hok
      rw [List.foldl_cons]
      apply ih
      intro g hg
      dsimp only at hg
      rcases List.mem_append.mp hg with h1 | h1
      · exact hok g h1
      · set dfa : List LMRow :=
          sortByDateDesc (df.filter (fun r => r.account_display_name == a)) with hdfa
        have hperm := sortByDateDesc_perm (df.filter (fun r => r.account_display_name == a))
        have hnodupdfa : (dfa.map (fun x => x.idx)).Nodup := by
          refine (List.Perm.nodup_iff (hperm.map (fun x => x.idx))).mpr ?_
          exact List.Nodup.sublist
            (List.Sublist.map (fun x => x.idx) (List.filter_sublist df)) hids
        have hacc : ∀ t1 ∈ dfa, ∀ t2 ∈ dfa,
            t1.account_display_name = t2.account_display_name := by
          intro t1 h1m t2 h2m
          have e1 : t1.account_display_name = a := by
            simpa using (List.mem_filter.mp (hperm.mem_iff.mp h1m)).2
          have e2 : t2.account_display_name = a := by
            simpa using (List.mem_filter.mp (hperm.mem_iff.mp h2m)).2
          rw [e1, e2]
        have hrun := runAccount_window lookback_days dfa hnodupdfa hacc dfa
          { dfLive := dfa, df_copy := dfa, deleted := [],
            ids_to_delete := acc.ids_to_delete, store := acc.store, offered := [] }
          acc.inputs (fun p hp => hp) (by rw [hdfa]; exact sortByDateDesc_pairwise _)
          rfl
          (fun t ht => ⟨List.mem_map_of_mem coreOf ht, by simp⟩)
          (by intro g hg2; exact absurd hg2 (List.not_mem_nil g))
        exact hrun g h1
  exact key _ _ (by intro g hg; exact absurd hg (List.not_mem_nil g))

/-- First member of an untagged candidate group. -/
def winRowA : LMRow :=
  { idx := 0, id := 2000, date := 20, amount := -500, payee := "Gym",
    category_name := "Fit", account_display_name := "Chk", notes := "", tags := [] }

/-- Second member, one day earlier. -/
def winRowB : LMRow := { winRowA with idx := 1, id := 2001, date := 19 }

/-- Witness for `self_set_candidates_same_account_window` at a concrete
two-row dataframe: the run displays the group `(winRowA, [winRowB])`, and the
theorem instantiated there bounds the candidate. -/
theorem self_set_candidates_same_account_window_witness :
    winRowB.account_display_name = winRowA.account_display_name
    ∧ winRowB.amount = winRowA.amount
    ∧ winRowA.date - 7 ≤ winRowB.date
    ∧ winRowB.date ≤ winRowA.date
    ∧ winRowB.idx ≠ winRowA.idx :=
  self_set_candidates_same_account_window [winRowA, winRowB] 7 wStore [""] (by decide)
    (winRowA, [winRowB]) (by decide) winRowB (by decide)
